import Mathlib

set_option autoImplicit false
set_option maxHeartbeats 1000000
set_option maxRecDepth 100000

/-
Verification of the in-memory accounts database (accounts-db/src/in_memory):
a shallow embedding of the pubkey registry, the SPL token compressor, the
16-byte packed metadata word, the owner table and the store/load operations,
followed by theorems about the specified properties.

Byte buffers are modelled as lists of naturals (every byte written by the
code is < 256 by construction).  Machine-integer wraparound is modelled with
explicit `% 2 ^ w` where the source performs a wrapping operation or a
field-width truncation.
-/

/-! # Byte-level utilities -/

abbrev Pubkey := List Nat

/-- Little-endian value of a byte list, as in `uN::from_le_bytes`. -/
def leVal : List Nat → Nat
  | [] => 0
  | b :: rest => b + 256 * leVal rest

/-- The four little-endian bytes of a `u32` value (`to_le_bytes`). -/
def toLe4 (n : Nat) : List Nat :=
  [n % 256, n / 256 % 256, n / 256 ^ 2 % 256, n / 256 ^ 3 % 256]

/-- The eight little-endian bytes of a `u64` value (`to_le_bytes`). -/
def toLe8 (n : Nat) : List Nat :=
  [n % 256, n / 256 % 256, n / 256 ^ 2 % 256, n / 256 ^ 3 % 256,
   n / 256 ^ 4 % 256, n / 256 ^ 5 % 256, n / 256 ^ 6 % 256, n / 256 ^ 7 % 256]

/-- The byte slice `data[lo..hi]`. -/
def listSlice (l : List Nat) (lo hi : Nat) : List Nat := (l.drop lo).take (hi - lo)

/-- `u32::from_le_bytes(data[off..off+4])`. -/
def u32le (l : List Nat) (off : Nat) : Nat := leVal (listSlice l off (off + 4))

/-- `u64::from_le_bytes(data[off..off+8])`. -/
def u64le (l : List Nat) (off : Nat) : Nat := leVal (listSlice l off (off + 8))

/-- Overwrite `l[off .. off + v.length)` with `v`, as `copy_from_slice` does
(every use in the code writes inside the bounds of the destination). -/
def writeRange : List Nat → Nat → List Nat → List Nat
  | _ :: xs, 0, v :: vs => v :: writeRange xs 0 vs
  | x :: xs, off + 1, v :: vs => x :: writeRange xs off (v :: vs)
  | l, _, _ => l

/-! # Pubkey registry (pubkey_registry.rs)

The registry is modelled by its `reverse` vector of interned pubkeys; the
`forward` hash map is exactly the index function of that vector (the code
keeps the two consistent: `forward[pk] = i` iff `reverse[i] = pk`). -/

abbrev PubkeyRegistry := List Pubkey

/-- First index of `pk` in the reverse vector: the `forward` map lookup. -/
def regFind : PubkeyRegistry → Pubkey → Option Nat
  | [], _ => none
  | q :: rest, pk => if q = pk then some 0 else (regFind rest pk).map (fun i => i + 1)

/-- `PubkeyRegistry::register`: return the interned id of `pk`, appending it
with the next dense id when absent. -/
def register (reg : PubkeyRegistry) (pk : Pubkey) : Nat × PubkeyRegistry :=
  match regFind reg pk with
  | some i => (i, reg)
  | none => (reg.length, reg ++ [pk])

/-- `PubkeyRegistry::get_pubkey`. -/
def get_pubkey (reg : PubkeyRegistry) (id : Nat) : Option Pubkey := reg.get? id

/-! # SPL flag constants (meta16b.rs) -/

def SPL_FLAG_STATE_MASK : Nat := 3          -- bits 0-1
def SPL_FLAG_IS_NATIVE : Nat := 4           -- 1 <<< 2
def SPL_FLAG_HAS_DELEGATE : Nat := 8        -- 1 <<< 3
def SPL_FLAG_HAS_CLOSE_AUTH : Nat := 16     -- 1 <<< 4
def SPL_FLAG_HAS_DEL_AMT : Nat := 32        -- 1 <<< 5

/-- The byte array of the well-known owner constant
`TokenkegQfeZyiNwAJbNbGKPFXCWuBvf9Ss623VQ5DA` (base58-decoded). -/
def TOKEN_PROGRAM_ID : Pubkey :=
  [6, 221, 246, 225, 215, 101, 161, 147, 217, 203, 225, 70, 206, 235, 121, 172,
   28, 180, 133, 237, 95, 91, 55, 145, 58, 140, 245, 133, 126, 255, 0, 169]

/-! # SPL compressor (spl_compressor.rs) -/

/-- Result of `SPLCompressor::compress`: the tier, the payload bytes and the
flags, together with the registry after the interior-mutable registrations. -/
structure CompressOut where
  tier : Nat
  buf : List Nat
  flags : Nat
  reg : PubkeyRegistry
deriving Repr

/-- `SPLCompressor::compress`. -/
def compress (data : List Nat) (reg : PubkeyRegistry) : CompressOut :=
  if data.length < 165 then ⟨11, data, 0, reg⟩
  else
    let mint := listSlice data 0 32
    let owner := listSlice data 32 64
    let amount := u64le data 64
    let delegate_tag := u32le data 72
    let state := data.getD 108 0
    let is_native_tag := u32le data 109
    let del_amt := u64le data 121
    let close_auth_tag := u32le data 129
    let has_delegate := delegate_tag ≠ 0
    let has_del_amt := del_amt > 0
    let has_close_auth := close_auth_tag ≠ 0
    let is_native := is_native_tag ≠ 0
    let flags := (state &&& 3)
      ||| (if is_native then SPL_FLAG_IS_NATIVE else 0)
      ||| (if has_delegate then SPL_FLAG_HAS_DELEGATE else 0)
      ||| (if has_close_auth then SPL_FLAG_HAS_CLOSE_AUTH else 0)
      ||| (if has_del_amt then SPL_FLAG_HAS_DEL_AMT else 0)
    let r1 := register reg mint
    let mint_id := r1.1
    let r2 := register r1.2 owner
    let owner_id := r2.1
    if ¬has_delegate ∧ ¬has_close_auth ∧ ¬has_del_amt ∧ ¬is_native then
      ⟨1, toLe4 mint_id ++ toLe4 owner_id ++ toLe8 amount, flags, r2.2⟩
    else if ¬has_delegate ∧ ¬has_close_auth ∧ ¬has_del_amt ∧ is_native then
      let native_amt := u64le data 113
      ⟨2, toLe4 mint_id ++ toLe4 owner_id ++ toLe8 amount ++ toLe8 native_amt
          ++ List.replicate 8 0, flags, r2.2⟩
    else
      let native_amt := if is_native then u64le data 113 else 0
      let r3 := if has_delegate then register r2.2 (listSlice data 76 108) else (0, r2.2)
      let delegate_id := r3.1
      let r4 := if has_close_auth then register r3.2 (listSlice data 133 165) else (0, r3.2)
      let close_auth_id := r4.1
      ⟨3, toLe4 mint_id ++ toLe4 owner_id ++ toLe8 amount ++ toLe8 native_amt
          ++ toLe8 del_amt ++ toLe4 delegate_id ++ toLe4 close_auth_id
          ++ List.replicate 8 0, flags, r4.2⟩

/-- `SPLCompressor::decompress`. -/
def decompress (tier : Nat) (compressed : List Nat) (flags : Nat)
    (reg : PubkeyRegistry) : List Nat :=
  let data0 := List.replicate 165 0
  let mint_id := u32le compressed 0
  let owner_id := u32le compressed 4
  let amount := u64le compressed 8
  let mint := (get_pubkey reg mint_id).getD (List.replicate 32 0)
  let owner := (get_pubkey reg owner_id).getD (List.replicate 32 0)
  let data1 := writeRange data0 0 mint
  let data2 := writeRange data1 32 owner
  let data3 := writeRange data2 64 (toLe8 amount)
  let state := flags &&& SPL_FLAG_STATE_MASK
  let data4 := writeRange data3 108 [state]
  let data5 :=
    if flags &&& SPL_FLAG_IS_NATIVE ≠ 0 then
      let d := writeRange data4 109 (toLe4 1)
      let native_amt := if tier = 2 ∨ tier = 3 then u64le compressed 16 else 0
      writeRange d 113 (toLe8 native_amt)
    else data4
  if tier = 3 then
    let del_amt := u64le compressed 24
    let data6 := writeRange data5 121 (toLe8 del_amt)
    let data7 :=
      if flags &&& SPL_FLAG_HAS_DELEGATE ≠ 0 then
        let d := writeRange data6 72 (toLe4 1)
        let del_id := u32le compressed 32
        let del := (get_pubkey reg del_id).getD (List.replicate 32 0)
        writeRange d 76 del
      else data6
    let data8 :=
      if flags &&& SPL_FLAG_HAS_CLOSE_AUTH ≠ 0 then
        let d := writeRange data7 129 (toLe4 1)
        let close_id := u32le compressed 36
        let close := (get_pubkey reg close_id).getD (List.replicate 32 0)
        writeRange d 133 close
      else data7
    data8
  else data5

/-! # Tier table and pool selection (mod.rs) -/

def TIER_SIZES : List Nat :=
  [0, 16, 32, 48, 64, 80, 96, 112, 128, 144, 160, 176, 256, 512, 1024, 8192]

/-- The loop body of `get_pool_id`: first index whose size fits, else 15. -/
def get_pool_id_aux (len : Nat) : List Nat → Nat → Nat
  | [], _ => 15
  | s :: rest, i => if len ≤ s then i else get_pool_id_aux len rest (i + 1)

/-- `InMemoryAccountsDb::get_pool_id`. -/
def get_pool_id (len : Nat) : Nat := get_pool_id_aux len TIER_SIZES 0

/-! # Packed metadata (meta16b.rs)

The five bitfields of the 128-bit word are modelled as the five natural
fields of a structure; each setter truncates to the declared field width
exactly as the bitfield does, and the value of the whole word is the sum of
the fields shifted to their bit positions. -/

structure Meta16B where
  lamports_rent : Nat   -- B64
  owner_idx : Nat       -- B16
  data_offset : Nat     -- B32
  data_pool_id : Nat    -- B4
  flags : Nat           -- B12
deriving Repr, DecidableEq

def Meta16B.new : Meta16B := ⟨0, 0, 0, 0, 0⟩

def Meta16B.set_lamports_rent (m : Meta16B) (v : Nat) : Meta16B :=
  { m with lamports_rent := v % 2 ^ 64 }

def Meta16B.set_owner_idx (m : Meta16B) (v : Nat) : Meta16B :=
  { m with owner_idx := v % 2 ^ 16 }

def Meta16B.set_data_offset (m : Meta16B) (v : Nat) : Meta16B :=
  { m with data_offset := v % 2 ^ 32 }

def Meta16B.set_data_pool_id (m : Meta16B) (v : Nat) : Meta16B :=
  { m with data_pool_id := v % 2 ^ 4 }

def Meta16B.set_flags (m : Meta16B) (v : Nat) : Meta16B :=
  { m with flags := v % 2 ^ 12 }

/-- The 128-bit value of the packed word (fields at bits 0, 64, 80, 112, 116). -/
def Meta16B.val (m : Meta16B) : Nat :=
  m.lamports_rent + 2 ^ 64 * m.owner_idx + 2 ^ 80 * m.data_offset
    + 2 ^ 112 * m.data_pool_id + 2 ^ 116 * m.flags

/-- `Meta16B::get_lamports` (Scheme A decode). -/
def Meta16B.get_lamports (m : Meta16B) : Nat :=
  let val := m.lamports_rent
  if val &&& 1 ≠ 0 then val >>> 1 else (val >>> 1) &&& 0x7FFFFFFFFFFFF

/-- `Meta16B::get_rent_epoch` (Scheme A decode; the exempt marker is
`u64::MAX`). -/
def Meta16B.get_rent_epoch (m : Meta16B) : Nat :=
  let val := m.lamports_rent
  if val &&& 1 ≠ 0 then 2 ^ 64 - 1 else val >>> 52

/-! # Owner table and the database (mod.rs) -/

/-- One pass of the linear probe in `get_or_register_owner`, sequentially:
return the first cell equal to `id`, or claim the first zero cell; `none`
models falling off the end of the table. -/
def owner_scan : List Nat → Nat → Option (Nat × List Nat)
  | [], _ => none
  | v :: rest, id =>
    if v = id then some (0, v :: rest)
    else if v = 0 then some (0, id :: rest)
    else (owner_scan rest id).map (fun p => (p.1 + 1, v :: p.2))

/-- The value `get_or_register_owner` actually returns: on table exhaustion
the code falls through to `0` and leaves the table unchanged. -/
def owner_scan_ret (table : List Nat) (id : Nat) : Nat × List Nat :=
  match owner_scan table id with
  | some p => p
  | none => (0, table)

structure AccountInfo where
  lamports : Nat
  owner : Pubkey
  data : List Nat
  rent_epoch : Nat
  executable : Bool
deriving Repr, DecidableEq

/-- The mutable state of `InMemoryAccountsDb` relevant to store/load: the
pubkey registry, the owner table, the metadata arena (indexed by the account
handle) and the data slots.  Every `store` allocates a fresh data slot and
points the handle's metadata word at it, so the slot contents are keyed here
by the handle whose metadata refers to them. -/
structure InMemoryAccountsDb where
  pubkey_registry : PubkeyRegistry
  owner_registry : List Nat
  meta_arena : Nat → Meta16B
  data_slots : Nat → List Nat

/-- `InMemoryAccountsDb::get_or_register_owner`. -/
def get_or_register_owner (db : InMemoryAccountsDb) (owner : Pubkey) :
    Nat × InMemoryAccountsDb :=
  let r := register db.pubkey_registry owner
  let s := owner_scan_ret db.owner_registry r.1
  (s.1, { db with pubkey_registry := r.2, owner_registry := s.2 })

/-- The payload selection at the top of `store`: the compressor for records
owned by the token program, the verbatim bytes in the fitting tier otherwise. -/
def select_payload (reg : PubkeyRegistry) (info : AccountInfo) : CompressOut :=
  if info.owner = TOKEN_PROGRAM_ID then compress info.data reg
  else ⟨get_pool_id info.data.length, info.data, 0, reg⟩

/-- `InMemoryAccountsDb::store`.  The arena slot is zero-filled on alloc and
then receives the payload bytes, so its contents are the payload padded with
zeroes to the tier size (the copy is in bounds only when the payload fits
the slot, see the C9 analysis). -/
def store (db : InMemoryAccountsDb) (account_id : Nat) (info : AccountInfo) :
    InMemoryAccountsDb :=
  let c := select_payload db.pubkey_registry info
  let flags := if info.executable then c.flags ||| 1 else c.flags
  let tier_size := TIER_SIZES.getD c.tier 0
  let data_offset := if c.tier > 0 then 1 else 0
  let slot := (c.buf ++ List.replicate tier_size 0).take tier_size
  let is_exempt := info.lamports > 0
  let lamports_rent :=
    if is_exempt then ((info.lamports <<< 1) % 2 ^ 64) ||| 1
    else ((info.lamports <<< 1) % 2 ^ 64) ||| ((info.rent_epoch <<< 52) % 2 ^ 64)
  let g := get_or_register_owner { db with pubkey_registry := c.reg } info.owner
  let owner_idx := g.1
  let db1 := g.2
  let new_meta :=
    ((((Meta16B.new.set_lamports_rent lamports_rent).set_owner_idx
        owner_idx).set_data_offset data_offset).set_data_pool_id c.tier).set_flags flags
  { db1 with
      meta_arena := Function.update db1.meta_arena account_id new_meta,
      data_slots :=
        if c.tier > 0 then Function.update db1.data_slots account_id slot
        else db1.data_slots }

/-- `InMemoryAccountsDb::load`.  Handle 0 has a null metadata pointer; a
zero metadata word means no account; the data read covers exactly
`TIER_SIZES[pool_id]` bytes of the slot. -/
def load (db : InMemoryAccountsDb) (account_id : Nat) : Option AccountInfo :=
  if account_id = 0 then none
  else
    let meta := db.meta_arena account_id
    if meta.val = 0 then none
    else
      let lamports := meta.get_lamports
      let rent_epoch := meta.get_rent_epoch
      let owner_account_id := db.owner_registry.getD meta.owner_idx 0
      match get_pubkey db.pubkey_registry owner_account_id with
      | none => none
      | some owner =>
        let pool_id := meta.data_pool_id
        let data :=
          if pool_id = 0 then []
          else
            let raw := listSlice (db.data_slots account_id) 0 (TIER_SIZES.getD pool_id 0)
            if owner = TOKEN_PROGRAM_ID ∧ pool_id ≤ 3 then
              decompress pool_id raw meta.flags db.pubkey_registry
            else raw
        some ⟨lamports, owner, data, rent_epoch, (meta.flags &&& 1) != 0⟩

/-- The freshly constructed database (`new()`): empty registry, 65536 free
owner cells, all-zero metadata. -/
def dbInit : InMemoryAccountsDb :=
  ⟨[], List.replicate 65536 0, fun _ => Meta16B.new, fun _ => []⟩

/-! # The canonical 165-byte token account layout (spec 4.E) -/

structure TokenAccount where
  mint : Pubkey
  owner : Pubkey
  amount : Nat
  delegate_tag : Nat
  delegate : Pubkey
  state : Nat
  is_native_tag : Nat
  native_amount : Nat
  delegated_amount : Nat
  close_auth_tag : Nat
  close_auth : Pubkey
deriving Repr

/-- The canonical 165-byte form of a token account, segment by segment at
offsets 0, 32, 64, 72, 76, 108, 109, 113, 121, 129, 133. -/
def encode165 (t : TokenAccount) : List Nat :=
  t.mint ++ t.owner ++ toLe8 t.amount ++ toLe4 t.delegate_tag ++ t.delegate
    ++ [t.state] ++ toLe4 t.is_native_tag ++ toLe8 t.native_amount
    ++ toLe8 t.delegated_amount ++ toLe4 t.close_auth_tag ++ t.close_auth

/-- A well-formed canonical record: 32-byte identifiers, state in {0,1,2},
tag words in {0,1}, 64-bit amounts, and the payload of an absent optional
field zeroed (the layout declares those bytes valid only when the tag is
non-zero). -/
def Canonical (t : TokenAccount) : Prop :=
  t.mint.length = 32 ∧ t.owner.length = 32 ∧ t.delegate.length = 32
    ∧ t.close_auth.length = 32
    ∧ t.state < 3 ∧ t.delegate_tag < 2 ∧ t.is_native_tag < 2 ∧ t.close_auth_tag < 2
    ∧ t.amount < 2 ^ 64 ∧ t.native_amount < 2 ^ 64 ∧ t.delegated_amount < 2 ^ 64
    ∧ (t.delegate_tag = 0 → t.delegate = List.replicate 32 0)
    ∧ (t.is_native_tag = 0 → t.native_amount = 0)
    ∧ (t.close_auth_tag = 0 → t.close_auth = List.replicate 32 0)

/-- Any interleaved sequence of registrations, applied in order. -/
def fold_register (reg : PubkeyRegistry) (l : List Pubkey) : PubkeyRegistry :=
  l.foldl (fun r q => (register r q).2) reg

/-- Any sequence of get_or_register_owner calls, applied in order. -/
def run_owner_calls (db : InMemoryAccountsDb) (l : List Pubkey) : InMemoryAccountsDb :=
  l.foldl (fun d o => (get_or_register_owner d o).2) db

/-! # Concrete fixtures used by counterexamples and witnesses -/

/-- A minimal well-formed token account with the given state byte: distinct
mint and inner owner, no delegate, not native, no close authority. -/
def tokSt (st : Nat) : TokenAccount :=
  ⟨List.replicate 32 1, List.replicate 32 2, 77, 0, List.replicate 32 0, st,
   0, 0, 0, 0, List.replicate 32 0⟩

/-- A record owned by the token program holding the canonical bytes of
`tokSt st`, with the given executable bit. -/
def recTok (st : Nat) (ex : Bool) : AccountInfo :=
  ⟨5, TOKEN_PROGRAM_ID, encode165 (tokSt st), 0, ex⟩

/-! # Helper lemmas: writeRange, slices, little-endian values -/

theorem writeRange_nil_v (l : List Nat) (off : Nat) : writeRange l off [] = l := by
  cases l with
  | nil => simp [writeRange]
  | cons x xs => cases off <;> simp [writeRange]

theorem writeRange_length (l : List Nat) (off : Nat) (v : List Nat) :
    (writeRange l off v).length = l.length := by
  induction l generalizing off v with
  | nil => cases v with
    | nil => simp [writeRange]
    | cons b bs => cases off <;> simp [writeRange]
  | cons x xs ih =>
    cases v with
    | nil => simp [writeRange_nil_v]
    | cons b bs =>
      cases off with
      | zero => simpa [writeRange] using ih 0 bs
      | succ o => simpa [writeRange] using ih o (b :: bs)

theorem writeRange_append_ge (a rest v : List Nat) (off : Nat) (h : a.length ≤ off) :
    writeRange (a ++ rest) off v = a ++ writeRange rest (off - a.length) v := by
  cases v with
  | nil => simp [writeRange_nil_v]
  | cons b bs =>
    induction a generalizing off with
    | nil => simp
    | cons x xs ih =>
      cases off with
      | zero => simp at h
      | succ o =>
        have h' : xs.length ≤ o := by simpa using h
        simpa [writeRange] using ih o h'

theorem writeRange_exact (seg rest v : List Nat) (h : v.length = seg.length) :
    writeRange (seg ++ rest) 0 v = v ++ rest := by
  induction v generalizing seg with
  | nil =>
    cases seg with
    | nil => simp [writeRange_nil_v]
    | cons s ss => simp at h
  | cons b bs ih =>
    cases seg with
    | nil => simp at h
    | cons s ss =>
      have h' : bs.length = ss.length := by simpa using h
      simpa [writeRange] using ih ss h'

theorem drop_append_ge (a rest : List Nat) (n : Nat) (h : a.length ≤ n) :
    (a ++ rest).drop n = rest.drop (n - a.length) := by
  induction a generalizing n with
  | nil => simp
  | cons x xs ih =>
    cases n with
    | zero => simp at h
    | succ m =>
      have h' : xs.length ≤ m := by simpa using h
      simpa using ih m h'

theorem take_append_exact (a rest : List Nat) (n : Nat) (h : n = a.length) :
    (a ++ rest).take n = a := by
  subst h
  induction a with
  | nil => simp
  | cons x xs ih => simpa using ih

theorem listSlice_append_ge (a rest : List Nat) (lo hi : Nat) (h : a.length ≤ lo) :
    listSlice (a ++ rest) lo hi = listSlice rest (lo - a.length) (hi - a.length) := by
  unfold listSlice
  rw [drop_append_ge a rest lo h]
  have : hi - lo = hi - a.length - (lo - a.length) := by omega
  rw [this]

theorem listSlice_here (a rest : List Nat) (hi : Nat) (h : hi = a.length) :
    listSlice (a ++ rest) 0 hi = a := by
  unfold listSlice
  simpa using take_append_exact a rest hi h

theorem getD_append_ge (a rest : List Nat) (n : Nat) (h : a.length ≤ n) :
    (a ++ rest).getD n 0 = rest.getD (n - a.length) 0 := by
  induction a generalizing n with
  | nil => simp
  | cons x xs ih =>
    cases n with
    | zero => simp at h
    | succ m =>
      have h' : xs.length ≤ m := by simpa using h
      simpa using ih m h'

theorem u32le_append_ge (a rest : List Nat) (off : Nat) (h : a.length ≤ off) :
    u32le (a ++ rest) off = u32le rest (off - a.length) := by
  unfold u32le
  rw [listSlice_append_ge a rest off (off + 4) h]
  have : off + 4 - a.length = off - a.length + 4 := by omega
  rw [this]

theorem u64le_append_ge (a rest : List Nat) (off : Nat) (h : a.length ≤ off) :
    u64le (a ++ rest) off = u64le rest (off - a.length) := by
  unfold u64le
  rw [listSlice_append_ge a rest off (off + 8) h]
  have : off + 8 - a.length = off - a.length + 8 := by omega
  rw [this]

@[simp] theorem toLe4_length (n : Nat) : (toLe4 n).length = 4 := by simp [toLe4]

@[simp] theorem toLe8_length (n : Nat) : (toLe8 n).length = 8 := by simp [toLe8]

theorem u32le_toLe4 (n : Nat) (rest : List Nat) : u32le (toLe4 n ++ rest) 0 = n % 2 ^ 32 := by
  simp [u32le, listSlice, toLe4, leVal]
  omega

theorem u64le_toLe8 (n : Nat) (rest : List Nat) : u64le (toLe8 n ++ rest) 0 = n % 2 ^ 64 := by
  simp [u64le, listSlice, toLe8, leVal]
  omega

theorem listSlice_toLe4 (n : Nat) (rest : List Nat) : listSlice (toLe4 n ++ rest) 0 4 = toLe4 n :=
  listSlice_here _ _ _ (by simp)

/-! # Registry lemmas -/

theorem regFind_some_get (reg : PubkeyRegistry) (pk : Pubkey) (i : Nat)
    (h : regFind reg pk = some i) : reg.get? i = some pk := by
  induction reg generalizing i with
  | nil => simp [regFind] at h
  | cons q rest ih =>
    by_cases hq : q = pk
    · simp [regFind, hq] at h
      subst h
      simp [hq]
    · simp only [regFind, if_neg hq, Option.map_eq_some'] at h
      obtain ⟨j, hj, rfl⟩ := h
      simpa using ih j hj

theorem regFind_some_lt (reg : PubkeyRegistry) (pk : Pubkey) (i : Nat)
    (h : regFind reg pk = some i) : i < reg.length := by
  induction reg generalizing i with
  | nil => simp [regFind] at h
  | cons q rest ih =>
    by_cases hq : q = pk
    · simp [regFind, hq] at h
      simp only [List.length_cons]
      omega
    · simp only [regFind, if_neg hq, Option.map_eq_some'] at h
      obtain ⟨j, hj, rfl⟩ := h
      have := ih j hj
      simp only [List.length_cons]
      omega

theorem regFind_append_left (reg l : PubkeyRegistry) (pk : Pubkey) (i : Nat)
    (h : regFind reg pk = some i) : regFind (reg ++ l) pk = some i := by
  induction reg generalizing i with
  | nil => simp [regFind] at h
  | cons q rest ih =>
    by_cases hq : q = pk
    · simp [regFind, hq] at h ⊢
      omega
    · simp only [regFind, if_neg hq, Option.map_eq_some'] at h ⊢
      obtain ⟨j, hj, rfl⟩ := h
      exact ⟨j, ih j hj, rfl⟩

theorem regFind_append_new (reg : PubkeyRegistry) (pk : Pubkey)
    (h : regFind reg pk = none) : regFind (reg ++ [pk]) pk = some reg.length := by
  induction reg with
  | nil => simp [regFind]
  | cons q rest ih =>
    by_cases hq : q = pk
    · simp [regFind, hq] at h
    · simp only [regFind, if_neg hq, Option.map_eq_none'] at h
      rw [List.cons_append]
      simp [regFind, hq, ih h]

theorem get?_concat_length (l : List Pubkey) (a : Pubkey) :
    (l ++ [a]).get? l.length = some a := by
  induction l with
  | nil => rfl
  | cons x xs ih => simpa using ih

theorem get?_append_left (reg l : PubkeyRegistry) (i : Nat) (v : Pubkey)
    (h : reg.get? i = some v) : (reg ++ l).get? i = some v := by
  induction reg generalizing i with
  | nil => simp at h
  | cons q rest ih =>
    cases i with
    | zero => simpa using h
    | succ j => simpa using ih j (by simpa using h)

theorem register_get (reg : PubkeyRegistry) (pk : Pubkey) :
    (register reg pk).2.get? (register reg pk).1 = some pk := by
  unfold register
  cases hf : regFind reg pk with
  | some i => simpa using regFind_some_get reg pk i hf
  | none => simpa using get?_concat_length reg pk

theorem register_preserves_get (reg : PubkeyRegistry) (pk : Pubkey) (i : Nat) (v : Pubkey)
    (h : reg.get? i = some v) : (register reg pk).2.get? i = some v := by
  unfold register
  cases regFind reg pk with
  | some j => simpa using h
  | none => simpa using get?_append_left reg [pk] i v h

theorem register_find_self (reg : PubkeyRegistry) (pk : Pubkey) :
    regFind (register reg pk).2 pk = some (register reg pk).1 := by
  unfold register
  cases hf : regFind reg pk with
  | some i => simpa using hf
  | none => simpa using regFind_append_new reg pk hf

theorem register_preserves_find (reg : PubkeyRegistry) (pk pk' : Pubkey) (i : Nat)
    (h : regFind reg pk = some i) : regFind (register reg pk').2 pk = some i := by
  unfold register
  cases regFind reg pk' with
  | some j => simpa using h
  | none => simpa using regFind_append_left reg [pk'] pk i h

theorem register_of_find (reg : PubkeyRegistry) (pk : Pubkey) (i : Nat)
    (h : regFind reg pk = some i) : register reg pk = (i, reg) := by
  unfold register
  rw [h]

theorem register_fst_le (reg : PubkeyRegistry) (pk : Pubkey) :
    (register reg pk).1 ≤ reg.length := by
  unfold register
  cases hf : regFind reg pk with
  | some i => exact le_of_lt (regFind_some_lt reg pk i hf)
  | none => simp

theorem register_length (reg : PubkeyRegistry) (pk : Pubkey) :
    (register reg pk).2.length ≤ reg.length + 1 := by
  unfold register
  cases regFind reg pk with
  | some i => simp
  | none => simp

/-! # C7: tier monotonicity of get_pool_id -/

theorem get_pool_id_aux_le (len : Nat) (l : List Nat) (i j : Nat)
    (hj : j < l.length) (hle : len ≤ l.getD j 0) :
    get_pool_id_aux len l i ≤ i + j := by
  induction l generalizing i j with
  | nil => simp at hj
  | cons s rest ih =>
    by_cases hs : len ≤ s
    · simp only [get_pool_id_aux, if_pos hs]
      omega
    · cases j with
      | zero => simp at hle; omega
      | succ m =>
        have := ih (i + 1) m (by simpa using hj) (by simpa using hle)
        simp [get_pool_id_aux, hs]
        omega

theorem get_pool_id_aux_fits (len : Nat) (l : List Nat) (i : Nat)
    (h : ∃ j, j < l.length ∧ len ≤ l.getD j 0) :
    i ≤ get_pool_id_aux len l i ∧ get_pool_id_aux len l i - i < l.length ∧
      len ≤ l.getD (get_pool_id_aux len l i - i) 0 := by
  induction l generalizing i with
  | nil => obtain ⟨j, hj, _⟩ := h; simp at hj
  | cons s rest ih =>
    by_cases hs : len ≤ s
    · simp only [get_pool_id_aux, if_pos hs]
      simpa using hs
    · obtain ⟨j, hj, hle⟩ := h
      have hj' : ∃ j, j < rest.length ∧ len ≤ rest.getD j 0 := by
        cases j with
        | zero => simp at hle; omega
        | succ m => exact ⟨m, by simpa using hj, by simpa using hle⟩
      obtain ⟨h1, h2, h3⟩ := ih (i + 1) hj'
      simp only [get_pool_id_aux, if_neg hs]
      refine ⟨by omega, by simp; omega, ?_⟩
      have heq : get_pool_id_aux len rest (i + 1) - i =
          (get_pool_id_aux len rest (i + 1) - (i + 1)) + 1 := by omega
      rw [heq]
      simpa using h3

theorem get_pool_id_aux_none (len : Nat) (l : List Nat) (i : Nat)
    (h : ∀ j, j < l.length → ¬ len ≤ l.getD j 0) :
    get_pool_id_aux len l i = 15 := by
  induction l generalizing i with
  | nil => rfl
  | cons s rest ih =>
    have hs : ¬ len ≤ s := by simpa using h 0 (by simp)
    simp only [get_pool_id_aux, if_neg hs]
    exact ih (i + 1) (fun j hj => by simpa using h (j + 1) (by simpa using hj))

/-- C7: `get_pool_id n` returns the smallest index `i` such that
`TIER_SIZES[i] ≥ n`, or 15 if no tier size is ≥ `n`. -/
theorem get_pool_id_spec (n : Nat) :
    ((∃ i, i < 16 ∧ n ≤ TIER_SIZES.getD i 0) →
      get_pool_id n < 16 ∧ n ≤ TIER_SIZES.getD (get_pool_id n) 0 ∧
        ∀ j, j < 16 → n ≤ TIER_SIZES.getD j 0 → get_pool_id n ≤ j)
    ∧ ((¬ ∃ i, i < 16 ∧ n ≤ TIER_SIZES.getD i 0) → get_pool_id n = 15) := by
  have hlen : TIER_SIZES.length = 16 := by decide
  constructor
  · intro hex
    have h := get_pool_id_aux_fits n TIER_SIZES 0 (by simpa [hlen] using hex)
    refine ⟨by simpa [hlen] using h.2.1, by simpa using h.2.2, ?_⟩
    intro j hj hle
    simpa using get_pool_id_aux_le n TIER_SIZES 0 j (by omega) hle
  · intro hex
    push_neg at hex
    exact get_pool_id_aux_none n TIER_SIZES 0 (by simpa [hlen] using hex)

/-- C7 witness at `n = 100`: the returned pool id fits 100 and is at most 7,
the index of the first tier size that is ≥ 100. -/
theorem get_pool_id_spec_witness :
    get_pool_id 100 < 16 ∧ 100 ≤ TIER_SIZES.getD (get_pool_id 100) 0 ∧
      get_pool_id 100 ≤ 7 :=
  ⟨((get_pool_id_spec 100).1 ⟨7, by decide, by decide⟩).1,
   ((get_pool_id_spec 100).1 ⟨7, by decide, by decide⟩).2.1,
   ((get_pool_id_spec 100).1 ⟨7, by decide, by decide⟩).2.2 7 (by decide) (by decide)⟩

/-! # C8: identifier stability of the registry -/

theorem fold_register_preserves_find (reg : PubkeyRegistry) (pk : Pubkey) (i : Nat)
    (l : List Pubkey) (h : regFind reg pk = some i) :
    regFind (fold_register reg l) pk = some i := by
  induction l generalizing reg with
  | nil => simpa [fold_register] using h
  | cons q rest ih =>
    simpa [fold_register] using ih (register reg q).2 (register_preserves_find reg pk q i h)

theorem fold_register_preserves_get (reg : PubkeyRegistry) (i : Nat) (v : Pubkey)
    (l : List Pubkey) (h : reg.get? i = some v) :
    (fold_register reg l).get? i = some v := by
  induction l generalizing reg with
  | nil => simpa [fold_register] using h
  | cons q rest ih =>
    simpa [fold_register] using ih (register reg q).2 (register_preserves_get reg q i v h)

/-- C8: registering an identifier always yields the same handle (also after
any interleaved registrations), handles are assigned densely (a fresh
identifier receives the current registry size as its handle, so handles are
increasing and never reused), and looking up the returned handle yields the
registered identifier, permanently. -/
theorem register_spec (reg : PubkeyRegistry) (pk : Pubkey) (others : List Pubkey) :
    get_pubkey (register reg pk).2 (register reg pk).1 = some pk
    ∧ (register (fold_register (register reg pk).2 others) pk).1 = (register reg pk).1
    ∧ (regFind reg pk = none → (register reg pk).1 = reg.length)
    ∧ get_pubkey (fold_register (register reg pk).2 others) (register reg pk).1 = some pk := by
  refine ⟨register_get reg pk, ?_, ?_, ?_⟩
  · have hf := register_find_self reg pk
    have hf2 := fold_register_preserves_find _ pk _ others hf
    rw [register_of_find _ _ _ hf2]
  · intro h
    unfold register
    rw [h]
  · exact fold_register_preserves_get _ _ _ others (register_get reg pk)

/-- C8 witness: a concrete fresh registration gets handle 0, is stable under
a later registration of a different identifier, and looks back up correctly. -/
theorem register_spec_witness :
    get_pubkey (register [] (List.replicate 32 5)).2 (register [] (List.replicate 32 5)).1
        = some (List.replicate 32 5)
    ∧ (register (fold_register (register [] (List.replicate 32 5)).2
          [List.replicate 32 6]) (List.replicate 32 5)).1
        = (register [] (List.replicate 32 5)).1
    ∧ (register [] (List.replicate 32 5)).1 = 0
    ∧ get_pubkey (fold_register (register [] (List.replicate 32 5)).2
          [List.replicate 32 6]) (register [] (List.replicate 32 5)).1
        = some (List.replicate 32 5) := by
  have h := register_spec [] (List.replicate 32 5) [List.replicate 32 6]
  exact ⟨h.1, h.2.1, by simpa using h.2.2.1 (by decide), h.2.2.2⟩

/-! # C1: the executable bit collides with the compressor state bits -/

/-- C1 fails on the code: `store` ORs the executable bit into flags bit 0,
which `compress` already uses for bit 0 of the two-bit state.  Storing the
same frozen (state = 2) token account with executable = true and with
executable = false yields different decoded data (state byte 3 vs 2), and a
stored initialized (state = 1) account with executable = false loads with
executable = true. -/
theorem executable_state_collision :
    ((load (store dbInit 1 (recTok 2 true)) 1).map (fun r => r.data.getD 108 0) = some 3)
    ∧ ((load (store dbInit 1 (recTok 2 false)) 1).map (fun r => r.data.getD 108 0) = some 2)
    ∧ ((load (store dbInit 1 (recTok 1 false)) 1).map (fun r => r.executable) = some true) := by
  decide

/-! # C5: short token-owned records -/

/-- C5 counterexample: a 10-byte record owned by the token program is stored
in tier 11 (slot size 176), although the smallest tier whose slot size fits
10 bytes is tier 1 (size 16). -/
theorem short_token_not_smallest_tier :
    ((store dbInit 1 ⟨5, TOKEN_PROGRAM_ID, List.replicate 10 3, 0, false⟩).meta_arena 1).data_pool_id = 11
    ∧ get_pool_id 10 = 1 ∧ (10 : Nat) ≤ TIER_SIZES.getD 1 0 ∧ (1 : Nat) ≠ 11 := by
  decide

theorem take_append_replicate (a : List Nat) (n : Nat) (h : a.length ≤ n) :
    (a ++ List.replicate n 0).take n = a ++ List.replicate (n - a.length) 0 := by
  rw [List.take_append_eq_append_take]
  congr 1
  · exact List.take_of_length_le h
  · rw [List.take_replicate]
    congr 1
    omega

/-- C5 amended: a token-program-owned record shorter than 165 bytes is
treated as non-compressible and stored verbatim with compressor flags 0 into
tier 11 (slot size 176), regardless of whether a smaller tier would fit. -/
theorem short_token_verbatim_tier11 (db : InMemoryAccountsDb) (h : Nat)
    (info : AccountInfo) (hown : info.owner = TOKEN_PROGRAM_ID)
    (hlen : info.data.length < 165) :
    ((store db h info).meta_arena h).data_pool_id = 11
    ∧ (store db h info).data_slots h
        = info.data ++ List.replicate (176 - info.data.length) 0
    ∧ ((store db h info).meta_arena h).flags = (if info.executable then 1 else 0) := by
  have hc : select_payload db.pubkey_registry info
      = ⟨11, info.data, 0, db.pubkey_registry⟩ := by
    rw [select_payload, if_pos hown, compress, if_pos hlen]
  have hts : TIER_SIZES.getD 11 0 = 176 := by decide
  simp only [store, hc, hts]
  refine ⟨?_, ?_, ?_⟩
  · simp [Meta16B.set_flags, Meta16B.set_data_pool_id]
  · rw [if_pos (by norm_num : (11:Nat) > 0)]
    simp only [get_or_register_owner, Function.update_same]
    exact take_append_replicate info.data 176 (by omega)
  · cases hex : info.executable <;>
      simp [Meta16B.set_flags, Meta16B.set_data_pool_id, hex]

/-- C5 amended witness: the 10-byte token-owned record lands in tier 11 with
its bytes verbatim followed by 166 zero bytes and flags 0. -/
theorem short_token_verbatim_tier11_witness :
    ((store dbInit 1 ⟨5, TOKEN_PROGRAM_ID, List.replicate 10 3, 0, false⟩).meta_arena 1).data_pool_id = 11
    ∧ (store dbInit 1 ⟨5, TOKEN_PROGRAM_ID, List.replicate 10 3, 0, false⟩).data_slots 1
        = List.replicate 10 3 ++ List.replicate 166 0
    ∧ ((store dbInit 1 ⟨5, TOKEN_PROGRAM_ID, List.replicate 10 3, 0, false⟩).meta_arena 1).flags = 0 := by
  have h := short_token_verbatim_tier11 dbInit 1
    ⟨5, TOKEN_PROGRAM_ID, List.replicate 10 3, 0, false⟩ rfl (by decide)
  exact ⟨h.1, by simpa using h.2.1, by simpa using h.2.2⟩

/-! # C6 counterexample: handle-0 aliasing in the owner table -/

/-- C6 fails on the code: the first pubkey ever interned receives IdHandle 0,
which the owner table also uses as its free marker.  Registering owner X
first (handle 0) returns slot 0 without claiming it; a second owner Y then
claims cell 0; a later call for X returns slot 1. -/
theorem owner_slot_instability :
    (get_or_register_owner dbInit (List.replicate 32 11)).1 = 0
    ∧ (get_or_register_owner ((get_or_register_owner ((get_or_register_owner dbInit
        (List.replicate 32 11)).2) (List.replicate 32 12)).2) (List.replicate 32 11)).1 = 1 := by
  decide

/-! # C9: the payload copy can exceed the slot size -/

/-- C9 fails on the code for oversize records: a non-token record of 8193
bytes selects tier 15 (slot size 8192) and the verbatim payload is longer
than the slot, so the byte copy in `store` runs past the slot's bounds. -/
theorem store_payload_overflow :
    (select_payload [] ⟨5, List.replicate 32 7, List.replicate 8193 0, 0, false⟩).buf.length
      > TIER_SIZES.getD (select_payload []
          ⟨5, List.replicate 32 7, List.replicate 8193 0, 0, false⟩).tier 0 := by
  have hsel : select_payload [] (⟨5, List.replicate 32 7, List.replicate 8193 0, 0, false⟩ : AccountInfo)
      = ⟨get_pool_id 8193, List.replicate 8193 0, 0, []⟩ := by
    rw [select_payload, if_neg (by decide)]
    simp only [List.length_replicate]
  rw [hsel]
  simp only [List.length_replicate]
  decide

/-! # Bit-arithmetic helpers for the packed metadata -/

theorem two_mul_or_one (l : Nat) : 2 * l ||| 1 = 2 * l + 1 := by
  apply Nat.eq_of_testBit_eq
  intro i
  cases i with
  | zero =>
    simp only [Nat.testBit_or, Nat.testBit_zero]
    have h1 : (2 * l) % 2 = 0 := by omega
    have h2 : (2 * l + 1) % 2 = 1 := by omega
    simp [h1, h2]
  | succ j =>
    rw [Nat.testBit_or]
    simp only [Nat.testBit_succ]
    have h1 : 2 * l / 2 = l := by omega
    have h2 : (2 * l + 1) / 2 = l := by omega
    have h3 : (1 : Nat) / 2 = 0 := by norm_num
    simp [h1, h2, h3]

theorem and_one_eq_mod_two (x : Nat) : x &&& 1 = x % 2 := by
  simpa using Nat.and_pow_two_sub_one_eq_mod x 1

theorem and_mask51 (x : Nat) : x &&& 0x7FFFFFFFFFFFF = x % 2 ^ 51 := by
  have h : (0x7FFFFFFFFFFFF : Nat) = 2 ^ 51 - 1 := by norm_num
  rw [h]
  exact Nat.and_pow_two_sub_one_eq_mod x 51

theorem or_one_pos (x : Nat) : 0 < x ||| 1 := by
  by_contra hc
  have h0 : x ||| 1 = 0 := by omega
  have := Nat.testBit_or x 1 0
  rw [h0] at this
  simp at this

/-- The exempt-branch value of the mixed field. -/
theorem exempt_field_val (l : Nat) (hb : l < 2 ^ 63) :
    ((l <<< 1) % 2 ^ 64) ||| 1 = 2 * l + 1 := by
  rw [Nat.shiftLeft_eq]
  have h1 : l * 2 ^ 1 = 2 * l := by ring
  rw [h1, Nat.mod_eq_of_lt (by omega)]
  exact two_mul_or_one l

/-- The non-exempt-branch value of the mixed field when lamports are zero. -/
theorem nonexempt_field_val (r : Nat) (hr : r ≤ 4095) :
    ((0 <<< 1) % 2 ^ 64) ||| ((r <<< 52) % 2 ^ 64) = r * 2 ^ 52 := by
  have h0 : (0 <<< 1) % 2 ^ 64 = 0 := by norm_num
  rw [h0, Nat.zero_or, Nat.shiftLeft_eq]
  exact Nat.mod_eq_of_lt (by
    have : r * 2 ^ 52 ≤ 4095 * 2 ^ 52 := Nat.mul_le_mul_right _ hr
    omega)

theorem get_lamports_exempt (m : Meta16B) (l : Nat) (hv : m.lamports_rent = 2 * l + 1) :
    m.get_lamports = l := by
  rw [Meta16B.get_lamports, hv]
  have h1 : (2 * l + 1) &&& 1 = 1 := by rw [and_one_eq_mod_two]; omega
  rw [if_pos (by rw [h1]; norm_num)]
  rw [Nat.shiftRight_eq_div_pow]
  omega

theorem get_rent_epoch_exempt (m : Meta16B) (l : Nat) (hv : m.lamports_rent = 2 * l + 1) :
    m.get_rent_epoch = 2 ^ 64 - 1 := by
  rw [Meta16B.get_rent_epoch, hv]
  have h1 : (2 * l + 1) &&& 1 = 1 := by rw [and_one_eq_mod_two]; omega
  rw [if_pos (by rw [h1]; norm_num)]

theorem get_lamports_nonexempt (m : Meta16B) (r : Nat) (hv : m.lamports_rent = r * 2 ^ 52) :
    m.get_lamports = 0 := by
  rw [Meta16B.get_lamports, hv]
  have h1 : (r * 2 ^ 52) &&& 1 = 0 := by rw [and_one_eq_mod_two]; omega
  rw [if_neg (by rw [h1]; norm_num), Nat.shiftRight_eq_div_pow, and_mask51]
  have h2 : r * 2 ^ 52 / 2 ^ 1 = r * 2 ^ 51 := by omega
  rw [h2]
  omega

theorem get_rent_epoch_nonexempt (m : Meta16B) (r : Nat) (hr : r ≤ 4095)
    (hv : m.lamports_rent = r * 2 ^ 52) : m.get_rent_epoch = r := by
  rw [Meta16B.get_rent_epoch, hv]
  have h1 : (r * 2 ^ 52) &&& 1 = 0 := by rw [and_one_eq_mod_two]; omega
  rw [if_neg (by rw [h1]; norm_num), Nat.shiftRight_eq_div_pow]
  omega

/-! # Owner-table scan lemmas -/

theorem owner_scan_isSome_of_zero_mem (table : List Nat) (id : Nat) (h : 0 ∈ table) :
    (owner_scan table id).isSome := by
  induction table with
  | nil => simp at h
  | cons v rest ih =>
    by_cases hv : v = id
    · simp [owner_scan, hv]
    · by_cases hz : v = 0
      · subst hz
        simp [owner_scan, hv]
      · have hm : 0 ∈ rest := by
          rcases List.mem_cons.mp h with h' | h'
          · omega
          · exact h'
        simp only [owner_scan, if_neg hv, if_neg hz]
        cases hs : owner_scan rest id with
        | none => rw [hs] at ih; simp [ih hm] at *
        | some p => simp

theorem owner_scan_some_spec (table : List Nat) (id : Nat) (k : Nat) (t' : List Nat)
    (h : owner_scan table id = some (k, t')) :
    t'.getD k 0 = id ∧ k < table.length ∧ t'.length = table.length := by
  induction table generalizing k t' with
  | nil => simp [owner_scan] at h
  | cons v rest ih =>
    rw [owner_scan] at h
    by_cases hv : v = id
    · rw [if_pos hv] at h
      injection h with h'
      injection h' with hk ht
      subst hk
      subst ht
      exact ⟨by simp [hv], by simp, by simp⟩
    · rw [if_neg hv] at h
      by_cases hz : v = 0
      · rw [if_pos hz] at h
        injection h with h'
        injection h' with hk ht
        subst hk
        subst ht
        exact ⟨by simp, by simp, by simp⟩
      · rw [if_neg hz] at h
        rcases Option.map_eq_some'.mp h with ⟨⟨k0, t0⟩, hp, heq⟩
        injection heq with hk ht
        obtain ⟨h1, h2, h3⟩ := ih k0 t0 hp
        subst hk
        subst ht
        exact ⟨by simpa using h1, by simp; omega, by simp [h3]⟩

/-! # Characterizations of store and load -/

theorem store_meta_at (db : InMemoryAccountsDb) (h : Nat) (info : AccountInfo) :
    (store db h info).meta_arena h =
      ⟨(if info.lamports > 0 then ((info.lamports <<< 1) % 2 ^ 64) ||| 1
        else ((info.lamports <<< 1) % 2 ^ 64) ||| ((info.rent_epoch <<< 52) % 2 ^ 64)) % 2 ^ 64,
       (owner_scan_ret db.owner_registry
          (register (select_payload db.pubkey_registry info).reg info.owner).1).1 % 2 ^ 16,
       (if (select_payload db.pubkey_registry info).tier > 0 then 1 else 0) % 2 ^ 32,
       (select_payload db.pubkey_registry info).tier % 2 ^ 4,
       (if info.executable then (select_payload db.pubkey_registry info).flags ||| 1
        else (select_payload db.pubkey_registry info).flags) % 2 ^ 12⟩ := by
  simp [store, get_or_register_owner, Meta16B.new, Meta16B.set_lamports_rent,
    Meta16B.set_owner_idx, Meta16B.set_data_offset, Meta16B.set_data_pool_id,
    Meta16B.set_flags, Function.update_same]

theorem store_registry_eq (db : InMemoryAccountsDb) (h : Nat) (info : AccountInfo) :
    (store db h info).pubkey_registry
      = (register (select_payload db.pubkey_registry info).reg info.owner).2 := by
  simp [store, get_or_register_owner]

theorem store_owner_table_eq (db : InMemoryAccountsDb) (h : Nat) (info : AccountInfo) :
    (store db h info).owner_registry
      = (owner_scan_ret db.owner_registry
          (register (select_payload db.pubkey_registry info).reg info.owner).1).2 := by
  simp [store, get_or_register_owner]

theorem store_slot_at (db : InMemoryAccountsDb) (h : Nat) (info : AccountInfo)
    (ht : (select_payload db.pubkey_registry info).tier > 0) :
    (store db h info).data_slots h
      = ((select_payload db.pubkey_registry info).buf
          ++ List.replicate (TIER_SIZES.getD (select_payload db.pubkey_registry info).tier 0) 0).take
          (TIER_SIZES.getD (select_payload db.pubkey_registry info).tier 0) := by
  simp [store, get_or_register_owner, if_pos ht, Function.update_same]

/-- After a store, the owner cell named by the stored owner_idx resolves back
to the stored owner pubkey (whenever the table has a free cell). -/
theorem store_owner_resolves (db : InMemoryAccountsDb) (h : Nat) (info : AccountInfo)
    (hfree : 0 ∈ db.owner_registry) (hlen : db.owner_registry.length ≤ 2 ^ 16) :
    get_pubkey (store db h info).pubkey_registry
      ((store db h info).owner_registry.getD (((store db h info).meta_arena h).owner_idx) 0)
      = some info.owner := by
  rw [store_registry_eq, store_owner_table_eq, store_meta_at]
  set id := (register (select_payload db.pubkey_registry info).reg info.owner).1 with hid
  have hsome := owner_scan_isSome_of_zero_mem db.owner_registry id hfree
  cases hscan : owner_scan db.owner_registry id with
  | none => rw [hscan] at hsome; simp at hsome
  | some p =>
    obtain ⟨k, t'⟩ := p
    obtain ⟨h1, h2, h3⟩ := owner_scan_some_spec db.owner_registry id k t' hscan
    have hret : owner_scan_ret db.owner_registry id = (k, t') := by
      rw [owner_scan_ret, hscan]
    rw [hret]
    have hk : k % 2 ^ 16 = k := Nat.mod_eq_of_lt (by omega)
    simp only [hk, h1]
    exact register_get _ info.owner

/-- load after store, with the owner resolved: the stored metadata word is
decoded and the data read back from the slot written by the store. -/
theorem load_store_eq (db : InMemoryAccountsDb) (h : Nat) (info : AccountInfo)
    (hh : h ≠ 0) (hfree : 0 ∈ db.owner_registry) (hlen : db.owner_registry.length ≤ 2 ^ 16)
    (hmv : ((store db h info).meta_arena h).val ≠ 0) :
    load (store db h info) h = some
      ⟨((store db h info).meta_arena h).get_lamports,
       info.owner,
       (if ((store db h info).meta_arena h).data_pool_id = 0 then []
        else if info.owner = TOKEN_PROGRAM_ID ∧ ((store db h info).meta_arena h).data_pool_id ≤ 3 then
          decompress ((store db h info).meta_arena h).data_pool_id
            (listSlice ((store db h info).data_slots h) 0
              (TIER_SIZES.getD ((store db h info).meta_arena h).data_pool_id 0))
            ((store db h info).meta_arena h).flags (store db h info).pubkey_registry
        else listSlice ((store db h info).data_slots h) 0
          (TIER_SIZES.getD ((store db h info).meta_arena h).data_pool_id 0)),
       ((store db h info).meta_arena h).get_rent_epoch,
       (((store db h info).meta_arena h).flags &&& 1) != 0⟩ := by
  rw [load, if_neg hh]
  simp only [if_neg hmv]
  rw [store_owner_resolves db h info hfree hlen]

/-- A successful load decodes lamports and rent epoch from the metadata word
of the loaded handle. -/
theorem load_some_fields (db' : InMemoryAccountsDb) (h : Nat) (r' : AccountInfo)
    (hl : load db' h = some r') :
    r'.lamports = (db'.meta_arena h).get_lamports
    ∧ r'.rent_epoch = (db'.meta_arena h).get_rent_epoch := by
  rw [load] at hl
  by_cases h0 : h = 0
  · rw [if_pos h0] at hl; simp at hl
  · rw [if_neg h0] at hl
    by_cases hv : (db'.meta_arena h).val = 0
    · simp only [if_pos hv] at hl; simp at hl
    · simp only [if_neg hv] at hl
      cases hp : get_pubkey db'.pubkey_registry
          (db'.owner_registry.getD (db'.meta_arena h).owner_idx 0) with
      | none => rw [hp] at hl; simp at hl
      | some o =>
        rw [hp] at hl
        simp only [Option.some.injEq] at hl
        rw [← hl]
        exact ⟨rfl, rfl⟩

theorem meta_val_ne_zero_of_lr (m : Meta16B) (h : m.lamports_rent ≠ 0) : m.val ≠ 0 := by
  rw [Meta16B.val]
  omega

theorem meta_val_ne_zero_of_pool (m : Meta16B) (h : m.data_pool_id ≠ 0) : m.val ≠ 0 := by
  rw [Meta16B.val]
  omega

theorem meta_val_ne_zero_of_flags (m : Meta16B) (h : m.flags ≠ 0) : m.val ≠ 0 := by
  rw [Meta16B.val]
  omega

theorem select_payload_nontoken (reg : PubkeyRegistry) (info : AccountInfo)
    (hown : info.owner ≠ TOKEN_PROGRAM_ID) :
    select_payload reg info = ⟨get_pool_id info.data.length, info.data, 0, reg⟩ := by
  rw [select_payload, if_neg hown]

theorem store_lamports_rent_exempt (db : InMemoryAccountsDb) (h : Nat) (info : AccountInfo)
    (hl : 0 < info.lamports) (hb : info.lamports ≤ 2 ^ 63 - 1) :
    ((store db h info).meta_arena h).lamports_rent = 2 * info.lamports + 1 := by
  rw [store_meta_at]
  dsimp only
  rw [if_pos hl, exempt_field_val _ (by omega)]
  exact Nat.mod_eq_of_lt (by omega)

theorem store_lamports_rent_nonexempt (db : InMemoryAccountsDb) (h : Nat) (info : AccountInfo)
    (hl : info.lamports = 0) (hr : info.rent_epoch ≤ 4095) :
    ((store db h info).meta_arena h).lamports_rent = info.rent_epoch * 2 ^ 52 := by
  rw [store_meta_at]
  dsimp only
  rw [if_neg (by omega), hl, nonexempt_field_val _ hr]
  refine Nat.mod_eq_of_lt ?_
  have : info.rent_epoch * 2 ^ 52 ≤ 4095 * 2 ^ 52 := Nat.mul_le_mul_right _ hr
  omega

/-! # C4: the lamports / rent-epoch mixed-field encoding -/

/-- C4: storing a record with `0 < lamports ≤ 2^63 − 1` loads back the exact
lamports with the exempt sentinel `u64::MAX` as rent epoch; storing a record
with `lamports = 0` and `rent_epoch ≤ 4095` loads back lamports 0 and the
exact rent epoch. -/
theorem lamports_rent_encoding (db : InMemoryAccountsDb) (h : Nat) (info : AccountInfo)
    (hh : h ≠ 0) (hfree : 0 ∈ db.owner_registry) (hlen : db.owner_registry.length ≤ 2 ^ 16) :
    ((0 < info.lamports ∧ info.lamports ≤ 2 ^ 63 - 1) →
      ∃ r', load (store db h info) h = some r'
        ∧ r'.lamports = info.lamports ∧ r'.rent_epoch = 2 ^ 64 - 1)
    ∧ ((info.lamports = 0 ∧ info.rent_epoch ≤ 4095) →
      ∀ r', load (store db h info) h = some r' →
        r'.lamports = 0 ∧ r'.rent_epoch = info.rent_epoch) := by
  constructor
  · rintro ⟨hl, hb⟩
    have hlr := store_lamports_rent_exempt db h info hl hb
    have hmv : ((store db h info).meta_arena h).val ≠ 0 :=
      meta_val_ne_zero_of_lr _ (by omega)
    rw [load_store_eq db h info hh hfree hlen hmv]
    refine ⟨_, rfl, ?_, ?_⟩
    · show ((store db h info).meta_arena h).get_lamports = info.lamports
      exact get_lamports_exempt _ _ hlr
    · show ((store db h info).meta_arena h).get_rent_epoch = 2 ^ 64 - 1
      exact get_rent_epoch_exempt _ _ hlr
  · rintro ⟨hl, hr⟩ r' hload
    obtain ⟨f1, f2⟩ := load_some_fields _ h r' hload
    have hlr := store_lamports_rent_nonexempt db h info hl hr
    constructor
    · rw [f1]
      exact get_lamports_nonexempt _ _ hlr
    · rw [f2]
      exact get_rent_epoch_nonexempt _ _ hr hlr

/-- C4 witness: a record with 500 lamports loads back with lamports 500 and
the exempt sentinel rent epoch. -/
theorem lamports_rent_encoding_witness :
    ∃ r', load (store dbInit 1 ⟨500, List.replicate 32 7, [], 7, false⟩) 1 = some r'
      ∧ r'.lamports = 500 ∧ r'.rent_epoch = 2 ^ 64 - 1 :=
  (lamports_rent_encoding dbInit 1 ⟨500, List.replicate 32 7, [], 7, false⟩
    (by norm_num)
    (show 0 ∈ List.replicate 65536 0 from List.mem_replicate.mpr ⟨by norm_num, rfl⟩)
    (show (List.replicate 65536 (0:Nat)).length ≤ 2 ^ 16 by
      rw [List.length_replicate]; norm_num)).1
    ⟨by norm_num, by norm_num⟩

/-! # C3: store/load round-trip -/

theorem get_pool_id_lt16 (n : Nat) : get_pool_id n < 16 := by
  have hlen : TIER_SIZES.length = 16 := by decide
  by_cases hex : ∃ j, j < TIER_SIZES.length ∧ n ≤ TIER_SIZES.getD j 0
  · have h := get_pool_id_aux_fits n TIER_SIZES 0 hex
    rw [get_pool_id]
    omega
  · push_neg at hex
    rw [get_pool_id, get_pool_id_aux_none n TIER_SIZES 0 (fun j hj hc => by
      have := hex j hj; omega)]
    norm_num

theorem tier_sizes_sorted :
    ∀ p, p < 16 → ∀ j, j < 16 → p ≤ j → TIER_SIZES.getD p 0 ≤ TIER_SIZES.getD j 0 := by
  decide

theorem mem_getD (l : List Nat) (a : Nat) (h : a ∈ l) :
    ∃ j, j < l.length ∧ l.getD j 0 = a := by
  induction l with
  | nil => simp at h
  | cons x xs ih =>
    rcases List.mem_cons.mp h with h' | h'
    · exact ⟨0, by simp, by simp [h']⟩
    · obtain ⟨j, hj, hg⟩ := ih h'
      exact ⟨j + 1, by simp; omega, by simpa using hg⟩

/-- When the length is itself a tier size, the selected tier's size is
exactly that length. -/
theorem tier_size_of_mem (n : Nat) (h : n ∈ TIER_SIZES) :
    TIER_SIZES.getD (get_pool_id n) 0 = n := by
  obtain ⟨j, hj, hg⟩ := mem_getD _ _ h
  have hlen : TIER_SIZES.length = 16 := by decide
  have hfits := get_pool_id_aux_fits n TIER_SIZES 0 ⟨j, hj, by omega⟩
  have hle := get_pool_id_aux_le n TIER_SIZES 0 j hj (by omega)
  have hgp : get_pool_id n = get_pool_id_aux n TIER_SIZES 0 := rfl
  simp only [Nat.sub_zero, Nat.zero_add, ← hgp] at hfits hle
  have hmono := tier_sizes_sorted (get_pool_id n) (by omega) j (by omega) (by omega)
  omega

/-- C3 counterexample: a non-token record whose data length (1) is not a
tier size loads back zero-padded to the tier size (16 bytes), so the loaded
data differs from the stored data. -/
theorem store_load_padding :
    (load (store dbInit 1 ⟨1, List.replicate 32 7, [5], 0, false⟩) 1).map (fun r => r.data)
      = some [5, 0, 0, 0, 0, 0, 0, 0, 0, 0, 0, 0, 0, 0, 0, 0]
    ∧ [5, 0, 0, 0, 0, 0, 0, 0, 0, 0, 0, 0, 0, 0, 0, 0] ≠ [5] := by
  decide

/-- C3 amended: for a record not owned by the token program, whose data
length is exactly a tier size (or 0), with lamports below 2^63 (and, when
lamports = 0, a rent epoch ≤ 4095 and a second nonzero metadata field),
store followed by load returns the record exactly, up to the rent-epoch
encoding rule. -/
theorem store_load_roundtrip (db : InMemoryAccountsDb) (h : Nat) (info : AccountInfo)
    (hh : h ≠ 0) (hfree : 0 ∈ db.owner_registry) (hlen : db.owner_registry.length ≤ 2 ^ 16)
    (hown : info.owner ≠ TOKEN_PROGRAM_ID)
    (hmem : info.data.length ∈ TIER_SIZES)
    (hlam : (0 < info.lamports ∧ info.lamports ≤ 2 ^ 63 - 1)
            ∨ (info.lamports = 0 ∧ info.rent_epoch ≤ 4095
               ∧ (0 < info.rent_epoch ∨ info.data ≠ [] ∨ info.executable = true))) :
    load (store db h info) h = some
      ⟨info.lamports, info.owner, info.data,
       (if 0 < info.lamports then 2 ^ 64 - 1 else info.rent_epoch), info.executable⟩ := by
  have hsel := select_payload_nontoken db.pubkey_registry info hown
  have htier : (select_payload db.pubkey_registry info).tier = get_pool_id info.data.length := by
    rw [hsel]
  have hbuf : (select_payload db.pubkey_registry info).buf = info.data := by rw [hsel]
  have hflags0 : (select_payload db.pubkey_registry info).flags = 0 := by rw [hsel]
  have hp16 := get_pool_id_lt16 info.data.length
  have hts := tier_size_of_mem info.data.length hmem
  have hpool : ((store db h info).meta_arena h).data_pool_id = get_pool_id info.data.length := by
    rw [store_meta_at]
    dsimp only
    rw [htier]
    exact Nat.mod_eq_of_lt (by omega)
  have hflags : ((store db h info).meta_arena h).flags = (if info.executable then 1 else 0) := by
    rw [store_meta_at]
    dsimp only
    rw [hflags0]
    cases info.executable <;> simp
  have hpool_pos : info.data ≠ [] → get_pool_id info.data.length ≠ 0 := by
    intro hd hc
    rw [hc] at hts
    have h0 : TIER_SIZES.getD 0 0 = 0 := by decide
    have : info.data.length = 0 := by omega
    exact hd (List.length_eq_zero.mp this)
  have hmv : ((store db h info).meta_arena h).val ≠ 0 := by
    rcases hlam with ⟨hl, hb⟩ | ⟨hl, hr, hcase⟩
    · refine meta_val_ne_zero_of_lr _ ?_
      have := store_lamports_rent_exempt db h info hl hb
      omega
    · rcases hcase with hrent | hdata | hexec
      · refine meta_val_ne_zero_of_lr _ ?_
        have := store_lamports_rent_nonexempt db h info hl hr
        have h52 : 0 < info.rent_epoch * 2 ^ 52 := Nat.mul_pos hrent (by norm_num)
        omega
      · refine meta_val_ne_zero_of_pool _ ?_
        rw [hpool]
        exact hpool_pos hdata
      · refine meta_val_ne_zero_of_flags _ ?_
        rw [hflags, hexec]
        norm_num
  rw [load_store_eq db h info hh hfree hlen hmv]
  simp only [Option.some.injEq, AccountInfo.mk.injEq]
  refine ⟨?_, trivial, ?_, ?_, ?_⟩
  · rcases hlam with ⟨hl, hb⟩ | ⟨hl, hr, _⟩
    · exact get_lamports_exempt _ _ (store_lamports_rent_exempt db h info hl hb)
    · rw [hl]
      exact get_lamports_nonexempt _ _ (store_lamports_rent_nonexempt db h info hl hr)
  · by_cases hd : info.data = []
    · have hL : info.data.length = 0 := by rw [hd]; rfl
      have hgp0 : get_pool_id info.data.length = 0 := by rw [hL]; decide
      rw [if_pos (by rw [hpool, hgp0]), hd]
    · rw [if_neg (by rw [hpool]; exact hpool_pos hd)]
      rw [if_neg (by rintro ⟨hc, _⟩; exact hown hc)]
      rw [hpool, hts, store_slot_at db h info (by
        rw [htier]
        exact Nat.pos_of_ne_zero (hpool_pos hd))]
      rw [hbuf, htier, hts]
      rw [take_append_exact info.data _ _ rfl]
      rw [listSlice]
      simp only [List.drop_zero, Nat.sub_zero]
      exact List.take_of_length_le (le_refl _)
  · rcases hlam with ⟨hl, hb⟩ | ⟨hl, hr, _⟩
    · rw [if_pos hl]
      exact get_rent_epoch_exempt _ _ (store_lamports_rent_exempt db h info hl hb)
    · rw [if_neg (by omega)]
      exact get_rent_epoch_nonexempt _ _ hr (store_lamports_rent_nonexempt db h info hl hr)
  · rw [hflags]
    cases info.executable <;> decide

/-- C3 amended witness: a 16-byte non-token record with 500 lamports round
trips exactly, with the exempt sentinel as rent epoch. -/
theorem store_load_roundtrip_witness :
    load (store dbInit 1 ⟨500, List.replicate 32 7, List.replicate 16 9, 7, true⟩) 1 = some
      ⟨500, List.replicate 32 7, List.replicate 16 9, 2 ^ 64 - 1, true⟩ := by
  have h := store_load_roundtrip dbInit 1 ⟨500, List.replicate 32 7, List.replicate 16 9, 7, true⟩
    (by norm_num)
    (show 0 ∈ List.replicate 65536 0 from List.mem_replicate.mpr ⟨by norm_num, rfl⟩)
    (show (List.replicate 65536 (0:Nat)).length ≤ 2 ^ 16 by
      rw [List.length_replicate]; norm_num)
    (by decide)
    (by decide)
    (Or.inl ⟨by norm_num, by norm_num⟩)
  simpa using h

/-! # C10: token data is normalized to 165 bytes -/

theorem getD_take (l : List Nat) (m n : Nat) (h : n < m) :
    (l.take m).getD n 0 = l.getD n 0 := by
  induction l generalizing m n with
  | nil => simp
  | cons x xs ih =>
    cases m with
    | zero => omega
    | succ m' =>
      cases n with
      | zero => simp
      | succ n' => simpa using ih m' n' (by omega)

theorem listSlice_take (data : List Nat) (lo hi : Nat) (hhi : hi ≤ 165) :
    listSlice (data.take 165) lo hi = listSlice data lo hi := by
  rw [listSlice, listSlice, List.drop_take, List.take_take]
  congr 1
  omega

/-- compress reads only the first 165 bytes of its input. -/
theorem compress_take165 (data : List Nat) (reg : PubkeyRegistry) (h : 165 ≤ data.length) :
    compress (data.take 165) reg = compress data reg := by
  have hlen : (data.take 165).length = 165 := by
    rw [List.length_take]; omega
  have hu32 : ∀ off, off + 4 ≤ 165 → u32le (data.take 165) off = u32le data off := by
    intro off hoff
    rw [u32le, u32le, listSlice_take data off (off + 4) (by omega)]
  have hu64 : ∀ off, off + 8 ≤ 165 → u64le (data.take 165) off = u64le data off := by
    intro off hoff
    rw [u64le, u64le, listSlice_take data off (off + 8) (by omega)]
  rw [compress, compress]
  rw [if_neg (show ¬ (List.take 165 data).length < 165 by omega)]
  rw [if_neg (show ¬ data.length < 165 by omega)]
  simp only [listSlice_take data 0 32 (by norm_num), listSlice_take data 32 64 (by norm_num),
    listSlice_take data 76 108 (by norm_num), listSlice_take data 133 165 (by norm_num),
    hu64 64 (by norm_num), hu64 113 (by norm_num), hu64 121 (by norm_num),
    hu32 72 (by norm_num), hu32 109 (by norm_num), hu32 129 (by norm_num),
    getD_take data 165 108 (by norm_num)]

/-- The decoder always produces exactly 165 bytes. -/
theorem decompress_length (tier : Nat) (compressed : List Nat) (flags : Nat)
    (reg : PubkeyRegistry) : (decompress tier compressed flags reg).length = 165 := by
  rw [decompress]
  split_ifs <;> simp [writeRange_length]

theorem compress_tier_123 (data : List Nat) (reg : PubkeyRegistry) (h : 165 ≤ data.length) :
    (compress data reg).tier = 1 ∨ (compress data reg).tier = 2 ∨ (compress data reg).tier = 3 := by
  rw [compress, if_neg (show ¬ data.length < 165 by omega)]
  dsimp only
  split_ifs <;> simp

/-- C10: a token-owned record longer than 165 bytes loads back with exactly
165 bytes of data, and the bytes at offsets 165 and beyond have no effect on
the stored state or on the loaded record. -/
theorem token_long_data_normalized (db : InMemoryAccountsDb) (h : Nat)
    (lam rent : Nat) (ex : Bool) (data1 data2 : List Nat)
    (hh : h ≠ 0) (hfree : 0 ∈ db.owner_registry) (hlen : db.owner_registry.length ≤ 2 ^ 16)
    (hlong1 : 165 < data1.length) (hlong2 : 165 < data2.length)
    (hpre : data1.take 165 = data2.take 165) :
    (∃ r', load (store db h ⟨lam, TOKEN_PROGRAM_ID, data1, rent, ex⟩) h = some r'
      ∧ r'.data.length = 165)
    ∧ load (store db h ⟨lam, TOKEN_PROGRAM_ID, data1, rent, ex⟩) h
        = load (store db h ⟨lam, TOKEN_PROGRAM_ID, data2, rent, ex⟩) h := by
  have hc : compress data1 db.pubkey_registry = compress data2 db.pubkey_registry := by
    rw [← compress_take165 data1 _ (by omega), ← compress_take165 data2 _ (by omega), hpre]
  have hsel1 : select_payload db.pubkey_registry ⟨lam, TOKEN_PROGRAM_ID, data1, rent, ex⟩
      = compress data1 db.pubkey_registry := by
    rw [select_payload, if_pos rfl]
  have hsel2 : select_payload db.pubkey_registry ⟨lam, TOKEN_PROGRAM_ID, data2, rent, ex⟩
      = compress data2 db.pubkey_registry := by
    rw [select_payload, if_pos rfl]
  have hstore : store db h ⟨lam, TOKEN_PROGRAM_ID, data1, rent, ex⟩
      = store db h ⟨lam, TOKEN_PROGRAM_ID, data2, rent, ex⟩ := by
    simp only [store, hsel1, hsel2, hc]
  refine ⟨?_, by rw [hstore]⟩
  have htier := compress_tier_123 data1 db.pubkey_registry (by omega)
  have hpool : ((store db h ⟨lam, TOKEN_PROGRAM_ID, data1, rent, ex⟩).meta_arena h).data_pool_id
      = (compress data1 db.pubkey_registry).tier := by
    rw [store_meta_at]
    dsimp only
    rw [hsel1]
    exact Nat.mod_eq_of_lt (by omega)
  have hmv : ((store db h ⟨lam, TOKEN_PROGRAM_ID, data1, rent, ex⟩).meta_arena h).val ≠ 0 := by
    refine meta_val_ne_zero_of_pool _ ?_
    rw [hpool]
    omega
  rw [load_store_eq db h ⟨lam, TOKEN_PROGRAM_ID, data1, rent, ex⟩ hh hfree hlen hmv]
  refine ⟨_, rfl, ?_⟩
  rw [if_neg (by rw [hpool]; omega), if_pos ⟨rfl, by rw [hpool]; omega⟩]
  exact decompress_length _ _ _ _

/-- C10 witness: the canonical frozen fixture padded with 4 extra bytes
loads back with exactly 165 data bytes, and changing the padding to 5 other
bytes yields the identical load result. -/
theorem token_long_data_normalized_witness :
    (∃ r', load (store dbInit 1
        ⟨5, TOKEN_PROGRAM_ID, encode165 (tokSt 1) ++ [9, 9, 9, 9], 0, false⟩) 1 = some r'
      ∧ r'.data.length = 165)
    ∧ load (store dbInit 1
        ⟨5, TOKEN_PROGRAM_ID, encode165 (tokSt 1) ++ [9, 9, 9, 9], 0, false⟩) 1
      = load (store dbInit 1
        ⟨5, TOKEN_PROGRAM_ID, encode165 (tokSt 1) ++ [1, 2, 3, 4, 5], 0, false⟩) 1 :=
  token_long_data_normalized dbInit 1 5 0 false
    (encode165 (tokSt 1) ++ [9, 9, 9, 9]) (encode165 (tokSt 1) ++ [1, 2, 3, 4, 5])
    (by norm_num)
    (show 0 ∈ List.replicate 65536 0 from List.mem_replicate.mpr ⟨by norm_num, rfl⟩)
    (show (List.replicate 65536 (0:Nat)).length ≤ 2 ^ 16 by
      rw [List.length_replicate]; norm_num)
    (by decide) (by decide) (by decide)

/-! # C6 amended: owner-slot stability for non-zero IdHandles -/

theorem getD_set_ne (l : List Nat) (k j v : Nat) (h : j ≠ k) :
    (l.set k v).getD j 0 = l.getD j 0 := by
  induction l generalizing k j with
  | nil => simp
  | cons x xs ih =>
    cases k with
    | zero =>
      cases j with
      | zero => omega
      | succ j' => simp
    | succ k' =>
      cases j with
      | zero => simp
      | succ j' => simpa using ih k' j' (by omega)

theorem owner_scan_first (table : List Nat) (id k : Nat) (t' : List Nat)
    (h : owner_scan table id = some (k, t')) :
    ∀ j, j < k → table.getD j 0 ≠ id ∧ table.getD j 0 ≠ 0 := by
  induction table generalizing k t' with
  | nil => simp [owner_scan] at h
  | cons v rest ih =>
    rw [owner_scan] at h
    by_cases hv : v = id
    · rw [if_pos hv] at h
      injection h with h'
      injection h' with hk ht
      subst hk
      omega
    · rw [if_neg hv] at h
      by_cases hz : v = 0
      · rw [if_pos hz] at h
        injection h with h'
        injection h' with hk ht
        subst hk
        omega
      · rw [if_neg hz] at h
        rcases Option.map_eq_some'.mp h with ⟨⟨k0, t0⟩, hp, heq⟩
        injection heq with hk ht
        subst hk
        intro j hj
        cases j with
        | zero => exact ⟨by simpa using hv, by simpa using hz⟩
        | succ j' => simpa using ih k0 t0 hp j' (by omega)

theorem owner_scan_cases (table : List Nat) (id k : Nat) (t' : List Nat)
    (h : owner_scan table id = some (k, t')) :
    (table.getD k 0 = id ∧ t' = table)
    ∨ (table.getD k 0 = 0 ∧ id ≠ 0 ∧ t' = table.set k id) := by
  induction table generalizing k t' with
  | nil => simp [owner_scan] at h
  | cons v rest ih =>
    rw [owner_scan] at h
    by_cases hv : v = id
    · rw [if_pos hv] at h
      injection h with h'
      injection h' with hk ht
      subst hk
      subst ht
      exact Or.inl ⟨by simpa using hv, rfl⟩
    · rw [if_neg hv] at h
      by_cases hz : v = 0
      · rw [if_pos hz] at h
        injection h with h'
        injection h' with hk ht
        subst hk
        subst ht
        refine Or.inr ⟨by simpa using hz, ?_, by simp⟩
        intro hc
        rw [hc] at hv
        exact hv hz
      · rw [if_neg hz] at h
        rcases Option.map_eq_some'.mp h with ⟨⟨k0, t0⟩, hp, heq⟩
        injection heq with hk ht
        subst hk
        subst ht
        rcases ih k0 t0 hp with ⟨h1, h2⟩ | ⟨h1, h2, h3⟩
        · exact Or.inl ⟨by simpa using h1, by rw [h2]⟩
        · exact Or.inr ⟨by simpa using h1, h2, by rw [h3]; simp⟩

theorem owner_scan_of_inv (table : List Nat) (k id : Nat)
    (hk : k < table.length) (hcell : table.getD k 0 = id)
    (hpre : ∀ j, j < k → table.getD j 0 ≠ 0 ∧ table.getD j 0 ≠ id) :
    owner_scan table id = some (k, table) := by
  induction table generalizing k with
  | nil => simp at hk
  | cons v rest ih =>
    cases k with
    | zero =>
      rw [owner_scan, if_pos (by simpa using hcell)]
    | succ k' =>
      have h0 := hpre 0 (by omega)
      rw [owner_scan, if_neg (by simpa using h0.2), if_neg (by simpa using h0.1)]
      rw [ih k' (by simpa using hk) (by simpa using hcell)
        (fun j hj => by simpa using hpre (j + 1) (by omega))]
      rfl

theorem owner_scan_none_of_full (table : List Nat) (id : Nat)
    (h : ∀ j, j < table.length → table.getD j 0 ≠ 0 ∧ table.getD j 0 ≠ id) :
    owner_scan table id = none := by
  induction table with
  | nil => rfl
  | cons v rest ih =>
    have h0 := h 0 (by simp)
    rw [owner_scan, if_neg (by simpa using h0.2), if_neg (by simpa using h0.1)]
    rw [ih (fun j hj => by simpa using h (j + 1) (by simpa using hj))]
    rfl

theorem owner_scan_none_full (table : List Nat) (id : Nat)
    (h : owner_scan table id = none) :
    ∀ j, j < table.length → table.getD j 0 ≠ 0 ∧ table.getD j 0 ≠ id := by
  induction table with
  | nil => simp
  | cons v rest ih =>
    rw [owner_scan] at h
    by_cases hv : v = id
    · rw [if_pos hv] at h; simp at h
    · rw [if_neg hv] at h
      by_cases hz : v = 0
      · rw [if_pos hz] at h; simp at h
      · rw [if_neg hz] at h
        have hr : owner_scan rest id = none := by
          cases hs : owner_scan rest id with
          | none => rfl
          | some p => rw [hs] at h; simp at h
        intro j hj
        cases j with
        | zero => exact ⟨by simpa using hz, by simpa using hv⟩
        | succ j' => simpa using ih hr j' (by simpa using hj)

/-- The first-write-wins property of a single scan: a non-zero cell is never
overwritten. -/
theorem owner_scan_ret_preserves_nonzero (table : List Nat) (id j : Nat)
    (h : table.getD j 0 ≠ 0) :
    (owner_scan_ret table id).2.getD j 0 = table.getD j 0 := by
  rw [owner_scan_ret]
  cases hs : owner_scan table id with
  | none => rfl
  | some p =>
    obtain ⟨k, t'⟩ := p
    rcases owner_scan_cases table id k t' hs with ⟨h1, h2⟩ | ⟨h1, h2, h3⟩
    · rw [h2]
    · rw [h3]
      exact getD_set_ne table k j id (fun hc => h (by rw [hc]; exact h1))

theorem owner_scan_ret_length (table : List Nat) (id : Nat) :
    (owner_scan_ret table id).2.length = table.length := by
  rw [owner_scan_ret]
  cases hs : owner_scan table id with
  | none => rfl
  | some p =>
    obtain ⟨k, t'⟩ := p
    exact (owner_scan_some_spec table id k t' hs).2.2

theorem owner_scan_ret_unchanged_of_full (table : List Nat) (id' : Nat)
    (h : ∀ j, j < table.length → table.getD j 0 ≠ 0) :
    (owner_scan_ret table id').2 = table := by
  rw [owner_scan_ret]
  cases hs : owner_scan table id' with
  | none => rfl
  | some p =>
    obtain ⟨k, t'⟩ := p
    rcases owner_scan_cases table id' k t' hs with ⟨h1, h2⟩ | ⟨h1, h2, h3⟩
    · rw [h2]
    · have hk := (owner_scan_some_spec table id' k t' hs).2.1
      exact absurd h1 (h k hk)

theorem inv_scan_preserved (table : List Nat) (k id id' : Nat)
    (hid : id ≠ 0)
    (hk : k < table.length) (hcell : table.getD k 0 = id)
    (hpre : ∀ j, j < k → table.getD j 0 ≠ 0 ∧ table.getD j 0 ≠ id) :
    k < (owner_scan_ret table id').2.length
    ∧ (owner_scan_ret table id').2.getD k 0 = id
    ∧ ∀ j, j < k → (owner_scan_ret table id').2.getD j 0 ≠ 0
        ∧ (owner_scan_ret table id').2.getD j 0 ≠ id := by
  have hlen := owner_scan_ret_length table id'
  have hcellp : (owner_scan_ret table id').2.getD k 0 = table.getD k 0 :=
    owner_scan_ret_preserves_nonzero table id' k (by rw [hcell]; exact hid)
  refine ⟨by omega, by rw [hcellp, hcell], ?_⟩
  intro j hj
  have hjp : (owner_scan_ret table id').2.getD j 0 = table.getD j 0 :=
    owner_scan_ret_preserves_nonzero table id' j (hpre j hj).1
  rw [hjp]
  exact hpre j hj

theorem run_calls_preserves_find (db : InMemoryAccountsDb) (l : List Pubkey)
    (pk : Pubkey) (i : Nat) (h : regFind db.pubkey_registry pk = some i) :
    regFind (run_owner_calls db l).pubkey_registry pk = some i := by
  induction l generalizing db with
  | nil => simpa [run_owner_calls] using h
  | cons o rest ih =>
    have hstep : regFind (get_or_register_owner db o).2.pubkey_registry pk = some i := by
      simp only [get_or_register_owner]
      exact register_preserves_find _ _ _ _ h
    simpa [run_owner_calls] using ih _ hstep

theorem run_calls_inv (db : InMemoryAccountsDb) (l : List Pubkey) (k id : Nat)
    (hid : id ≠ 0)
    (hk : k < db.owner_registry.length) (hcell : db.owner_registry.getD k 0 = id)
    (hpre : ∀ j, j < k → db.owner_registry.getD j 0 ≠ 0 ∧ db.owner_registry.getD j 0 ≠ id) :
    k < (run_owner_calls db l).owner_registry.length
    ∧ (run_owner_calls db l).owner_registry.getD k 0 = id
    ∧ ∀ j, j < k → (run_owner_calls db l).owner_registry.getD j 0 ≠ 0
        ∧ (run_owner_calls db l).owner_registry.getD j 0 ≠ id := by
  induction l generalizing db with
  | nil => exact ⟨by simpa [run_owner_calls] using hk, by simpa [run_owner_calls] using hcell,
      fun j hj => by simpa [run_owner_calls] using hpre j hj⟩
  | cons o rest ih =>
    have htab : (get_or_register_owner db o).2.owner_registry
        = (owner_scan_ret db.owner_registry (register db.pubkey_registry o).1).2 := by
      simp [get_or_register_owner]
    have hstep := inv_scan_preserved db.owner_registry k id
      (register db.pubkey_registry o).1 hid hk hcell hpre
    have := ih (get_or_register_owner db o).2
      (by rw [htab]; exact hstep.1) (by rw [htab]; exact hstep.2.1)
      (fun j hj => by rw [htab]; exact hstep.2.2 j hj)
    simpa [run_owner_calls] using this

theorem run_calls_unchanged_of_full (db : InMemoryAccountsDb) (l : List Pubkey)
    (h : ∀ j, j < db.owner_registry.length → db.owner_registry.getD j 0 ≠ 0) :
    (run_owner_calls db l).owner_registry = db.owner_registry := by
  induction l generalizing db with
  | nil => simp [run_owner_calls]
  | cons o rest ih =>
    have htab : (get_or_register_owner db o).2.owner_registry = db.owner_registry := by
      simp only [get_or_register_owner]
      exact owner_scan_ret_unchanged_of_full _ _ h
    have := ih (get_or_register_owner db o).2 (by rw [htab]; exact h)
    rw [← htab]
    simpa [run_owner_calls] using this

theorem get_or_register_owner_fst (db : InMemoryAccountsDb) (o : Pubkey) :
    (get_or_register_owner db o).1
      = (owner_scan_ret db.owner_registry (register db.pubkey_registry o).1).1 := rfl

theorem get_or_register_owner_table (db : InMemoryAccountsDb) (o : Pubkey) :
    (get_or_register_owner db o).2.owner_registry
      = (owner_scan_ret db.owner_registry (register db.pubkey_registry o).1).2 := rfl

theorem get_or_register_owner_registry (db : InMemoryAccountsDb) (o : Pubkey) :
    (get_or_register_owner db o).2.pubkey_registry
      = (register db.pubkey_registry o).2 := rfl

/-- C6 amended: the same owner always maps to the same owner slot, provided
its registered IdHandle is non-zero (IdHandle 0 collides with the table's
free marker); and, unconditionally, a cell of the owner table that holds a
non-zero value is never changed by a later call (first-write-wins). -/
theorem owner_slot_stable (db db2 : InMemoryAccountsDb) (x o : Pubkey)
    (mid : List Pubkey) (j : Nat)
    (hnz : (register db.pubkey_registry x).1 ≠ 0) :
    (get_or_register_owner (run_owner_calls (get_or_register_owner db x).2 mid) x).1
      = (get_or_register_owner db x).1
    ∧ (db2.owner_registry.getD j 0 ≠ 0 →
        (get_or_register_owner db2 o).2.owner_registry.getD j 0
          = db2.owner_registry.getD j 0) := by
  constructor
  · have hfind1 : regFind (register db.pubkey_registry x).2 x
        = some (register db.pubkey_registry x).1 :=
      register_find_self db.pubkey_registry x
    have hfind2 : regFind (run_owner_calls (get_or_register_owner db x).2 mid).pubkey_registry x
        = some (register db.pubkey_registry x).1 :=
      run_calls_preserves_find _ mid x _
        (by rw [get_or_register_owner_registry]; exact hfind1)
    have hreg2 : (register (run_owner_calls (get_or_register_owner db x).2 mid).pubkey_registry x).1
        = (register db.pubkey_registry x).1 := by
      rw [register_of_find _ _ _ hfind2]
    rw [get_or_register_owner_fst (run_owner_calls (get_or_register_owner db x).2 mid) x,
      get_or_register_owner_fst db x, hreg2]
    cases hs : owner_scan db.owner_registry (register db.pubkey_registry x).1 with
    | none =>
      have hfull := owner_scan_none_full db.owner_registry _ hs
      have hret1v : owner_scan_ret db.owner_registry (register db.pubkey_registry x).1
          = (0, db.owner_registry) := by
        rw [owner_scan_ret, hs]
      have htab1 : (get_or_register_owner db x).2.owner_registry = db.owner_registry := by
        rw [get_or_register_owner_table, hret1v]
      have htab2 : (run_owner_calls (get_or_register_owner db x).2 mid).owner_registry
          = db.owner_registry := by
        have := run_calls_unchanged_of_full (get_or_register_owner db x).2 mid
          (by rw [htab1]; intro jj hjj; exact (hfull jj hjj).1)
        rw [htab1] at this
        exact this
      rw [htab2]
    | some p =>
      obtain ⟨k, t'⟩ := p
      have hret1v : owner_scan_ret db.owner_registry (register db.pubkey_registry x).1
          = (k, t') := by
        rw [owner_scan_ret, hs]
      have hspec := owner_scan_some_spec db.owner_registry _ k t' hs
      have hfirst := owner_scan_first db.owner_registry _ k t' hs
      have hcell : t'.getD k 0 = (register db.pubkey_registry x).1 := hspec.1
      have hklen : k < t'.length := by rw [hspec.2.2]; exact hspec.2.1
      have hpre : ∀ jj, jj < k → t'.getD jj 0 ≠ 0
          ∧ t'.getD jj 0 ≠ (register db.pubkey_registry x).1 := by
        intro jj hjj
        have hpres : t'.getD jj 0 = db.owner_registry.getD jj 0 := by
          rcases owner_scan_cases db.owner_registry _ k t' hs with ⟨h1, h2⟩ | ⟨h1, h2, h3⟩
          · rw [h2]
          · rw [h3]
            exact getD_set_ne _ _ _ _ (by omega)
        rw [hpres]
        exact ⟨(hfirst jj hjj).2, (hfirst jj hjj).1⟩
      have htab1 : (get_or_register_owner db x).2.owner_registry = t' := by
        rw [get_or_register_owner_table, hret1v]
      have hinv2 := run_calls_inv (get_or_register_owner db x).2 mid k
        (register db.pubkey_registry x).1 hnz
        (by rw [htab1]; exact hklen) (by rw [htab1]; exact hcell)
        (fun jj hjj => by rw [htab1]; exact hpre jj hjj)
      have hscan2 := owner_scan_of_inv
        (run_owner_calls (get_or_register_owner db x).2 mid).owner_registry k
        (register db.pubkey_registry x).1 hinv2.1 hinv2.2.1 hinv2.2.2
      rw [hret1v, owner_scan_ret, hscan2]
  · intro hj
    rw [get_or_register_owner_table]
    exact owner_scan_ret_preserves_nonzero _ _ _ hj

/-- C6 amended witness: with one identifier already interned, a fresh owner
receives IdHandle 1, claims slot 0, and an interleaved call for another
owner does not move it; a non-zero cell survives a call untouched. -/
theorem owner_slot_stable_witness :
    (get_or_register_owner (run_owner_calls (get_or_register_owner
        { dbInit with pubkey_registry := [List.replicate 32 1] } (List.replicate 32 11)).2
        [List.replicate 32 12]) (List.replicate 32 11)).1
      = (get_or_register_owner { dbInit with pubkey_registry := [List.replicate 32 1] }
          (List.replicate 32 11)).1
    ∧ (get_or_register_owner { dbInit with owner_registry := [7, 0, 0, 0] }
        (List.replicate 32 12)).2.owner_registry.getD 0 0
      = ({ dbInit with owner_registry := [7, 0, 0, 0] }
          : InMemoryAccountsDb).owner_registry.getD 0 0 := by
  have h := owner_slot_stable { dbInit with pubkey_registry := [List.replicate 32 1] }
    { dbInit with owner_registry := [7, 0, 0, 0] } (List.replicate 32 11)
    (List.replicate 32 12) [List.replicate 32 12] 0 (by decide)
  exact ⟨h.1, h.2 (by decide)⟩

/-! # C2: compressor round-trip -/

theorem listSlice_all (l : List Nat) (hi : Nat) (h : hi = l.length) :
    listSlice l 0 hi = l := by
  unfold listSlice
  subst h
  simp [List.take_of_length_le]

theorem getD_append_zero (x : Nat) (rest : List Nat) : ([x] ++ rest).getD 0 0 = x := rfl

theorem u64le_toLe8_self (n : Nat) : u64le (toLe8 n) 0 = n % 2 ^ 64 := by
  simp [u64le, listSlice, toLe8, leVal]
  omega

theorem writeRange_exact_all (seg v : List Nat) (h : v.length = seg.length) :
    writeRange seg 0 v = v := by
  have h2 := writeRange_exact seg [] v h
  simpa using h2

theorem repl165_split : (List.replicate 165 (0 : Nat)) =
    List.replicate 32 0 ++ (List.replicate 32 0 ++ (toLe8 0 ++ (toLe4 0 ++
      (List.replicate 32 0 ++ ([0] ++ (toLe4 0 ++ (toLe8 0 ++ (toLe8 0 ++
      (toLe4 0 ++ List.replicate 32 0))))))))) := by decide

theorem fst2_le (reg : PubkeyRegistry) (m o : Pubkey) :
    (register (register reg m).2 o).1 ≤ reg.length + 1 :=
  le_trans (register_fst_le _ _) (register_length reg m)

theorem gp2_mint (reg : PubkeyRegistry) (m o : Pubkey) :
    get_pubkey (register (register reg m).2 o).2 (register reg m).1 = some m :=
  register_preserves_get _ _ _ _ (register_get reg m)

theorem gp2_owner (reg : PubkeyRegistry) (m o : Pubkey) :
    get_pubkey (register (register reg m).2 o).2 (register (register reg m).2 o).1 = some o :=
  register_get _ _

theorem flag_or_facts1 :
    (((1 : Nat) ||| 4) = 5)
    ∧ (((2 : Nat) ||| 4) = 6)
    ∧ (((1 : Nat) ||| 8) = 9)
    ∧ (((2 : Nat) ||| 8) = 10)
    ∧ (((4 : Nat) ||| 8) = 12)
    ∧ (((5 : Nat) ||| 8) = 13)
    ∧ (((6 : Nat) ||| 8) = 14)
    ∧ (((1 : Nat) ||| 16) = 17)
    ∧ (((2 : Nat) ||| 16) = 18)
    ∧ (((4 : Nat) ||| 16) = 20)
    ∧ (((5 : Nat) ||| 16) = 21)
    ∧ (((6 : Nat) ||| 16) = 22)
    ∧ (((8 : Nat) ||| 16) = 24)
    ∧ (((9 : Nat) ||| 16) = 25)
    ∧ (((10 : Nat) ||| 16) = 26)
    ∧ (((12 : Nat) ||| 16) = 28)
    ∧ (((13 : Nat) ||| 16) = 29)
    ∧ (((14 : Nat) ||| 16) = 30)
    ∧ (((1 : Nat) ||| 32) = 33)
    ∧ (((2 : Nat) ||| 32) = 34) := by decide

theorem flag_or_facts2 :
    (((4 : Nat) ||| 32) = 36)
    ∧ (((5 : Nat) ||| 32) = 37)
    ∧ (((6 : Nat) ||| 32) = 38)
    ∧ (((8 : Nat) ||| 32) = 40)
    ∧ (((9 : Nat) ||| 32) = 41)
    ∧ (((10 : Nat) ||| 32) = 42)
    ∧ (((12 : Nat) ||| 32) = 44)
    ∧ (((13 : Nat) ||| 32) = 45)
    ∧ (((14 : Nat) ||| 32) = 46)
    ∧ (((16 : Nat) ||| 32) = 48)
    ∧ (((17 : Nat) ||| 32) = 49)
    ∧ (((18 : Nat) ||| 32) = 50)
    ∧ (((20 : Nat) ||| 32) = 52)
    ∧ (((21 : Nat) ||| 32) = 53)
    ∧ (((22 : Nat) ||| 32) = 54)
    ∧ (((24 : Nat) ||| 32) = 56)
    ∧ (((25 : Nat) ||| 32) = 57)
    ∧ (((26 : Nat) ||| 32) = 58)
    ∧ (((28 : Nat) ||| 32) = 60)
    ∧ (((29 : Nat) ||| 32) = 61)
    ∧ (((30 : Nat) ||| 32) = 62) := by decide

theorem and3_eq_mod (x : Nat) : x &&& 3 = x % 4 := by
  simpa using Nat.and_pow_two_sub_one_eq_mod x 2


theorem fst3_le (reg : PubkeyRegistry) (m o d : Pubkey) :
    (register (register (register reg m).2 o).2 d).1 ≤ reg.length + 2 :=
  le_trans (register_fst_le _ _) (le_trans (register_length _ _)
    (by have := register_length reg m; omega))

theorem fst4_le (reg : PubkeyRegistry) (m o d c : Pubkey) :
    (register (register (register (register reg m).2 o).2 d).2 c).1 ≤ reg.length + 3 := by
  have h1 := register_fst_le (register (register (register reg m).2 o).2 d).2 c
  have h2 := register_length (register (register reg m).2 o).2 d
  have h3 := register_length (register reg m).2 o
  have h4 := register_length reg m
  omega

theorem gp3_mint (reg : PubkeyRegistry) (m o d : Pubkey) :
    get_pubkey (register (register (register reg m).2 o).2 d).2 (register reg m).1 = some m :=
  register_preserves_get _ _ _ _ (gp2_mint reg m o)

theorem gp3_owner (reg : PubkeyRegistry) (m o d : Pubkey) :
    get_pubkey (register (register (register reg m).2 o).2 d).2
      (register (register reg m).2 o).1 = some o :=
  register_preserves_get _ _ _ _ (gp2_owner reg m o)

theorem gp3_third (reg : PubkeyRegistry) (m o d : Pubkey) :
    get_pubkey (register (register (register reg m).2 o).2 d).2
      (register (register (register reg m).2 o).2 d).1 = some d :=
  register_get _ _

theorem gp4_mint (reg : PubkeyRegistry) (m o d c : Pubkey) :
    get_pubkey (register (register (register (register reg m).2 o).2 d).2 c).2
      (register reg m).1 = some m :=
  register_preserves_get _ _ _ _ (gp3_mint reg m o d)

theorem gp4_owner (reg : PubkeyRegistry) (m o d c : Pubkey) :
    get_pubkey (register (register (register (register reg m).2 o).2 d).2 c).2
      (register (register reg m).2 o).1 = some o :=
  register_preserves_get _ _ _ _ (gp2_owner reg m o) |> register_preserves_get _ _ _ _

theorem gp4_third (reg : PubkeyRegistry) (m o d c : Pubkey) :
    get_pubkey (register (register (register (register reg m).2 o).2 d).2 c).2
      (register (register (register reg m).2 o).2 d).1 = some d :=
  register_preserves_get _ _ _ _ (gp3_third reg m o d)

theorem gp4_fourth (reg : PubkeyRegistry) (m o d c : Pubkey) :
    get_pubkey (register (register (register (register reg m).2 o).2 d).2 c).2
      (register (register (register (register reg m).2 o).2 d).2 c).1 = some c :=
  register_get _ _

/-- C2: for every canonical 165-byte token record with state in {0,1,2} and
tag words in {0,1}, decompressing the compressed form with the tier, flags
and registry produced by compress restores the record exactly. -/
theorem compressor_roundtrip (t : TokenAccount) (reg : PubkeyRegistry)
    (hcan : Canonical t) (hreg : reg.length + 4 ≤ 2 ^ 32) :
    decompress (compress (encode165 t) reg).tier (compress (encode165 t) reg).buf
      (compress (encode165 t) reg).flags (compress (encode165 t) reg).reg
      = encode165 t := by
  obtain ⟨hm, ho, hd, hc, hst, hdt, hnt, hct, ham, hnam, hdam, hz1, hz2, hz3⟩ := hcan
  have hamod : t.amount % 2 ^ 64 = t.amount := Nat.mod_eq_of_lt ham
  have hnamod : t.native_amount % 2 ^ 64 = t.native_amount := Nat.mod_eq_of_lt hnam
  have hdamod : t.delegated_amount % 2 ^ 64 = t.delegated_amount := Nat.mod_eq_of_lt hdam
  have hb1 : (register reg t.mint).1 % 2 ^ 32 = (register reg t.mint).1 :=
    Nat.mod_eq_of_lt (by have := register_fst_le reg t.mint; omega)
  have hb2 : (register (register reg t.mint).2 t.owner).1 % 2 ^ 32
      = (register (register reg t.mint).2 t.owner).1 :=
    Nat.mod_eq_of_lt (by have := fst2_le reg t.mint t.owner; omega)
  have hb3d : (register (register (register reg t.mint).2 t.owner).2 t.delegate).1 % 2 ^ 32
      = (register (register (register reg t.mint).2 t.owner).2 t.delegate).1 :=
    Nat.mod_eq_of_lt (by have := fst3_le reg t.mint t.owner t.delegate; omega)
  have hb3c : (register (register (register reg t.mint).2 t.owner).2 t.close_auth).1 % 2 ^ 32
      = (register (register (register reg t.mint).2 t.owner).2 t.close_auth).1 :=
    Nat.mod_eq_of_lt (by have := fst3_le reg t.mint t.owner t.close_auth; omega)
  have hb4 : (register (register (register (register reg t.mint).2 t.owner).2 t.delegate).2
        t.close_auth).1 % 2 ^ 32
      = (register (register (register (register reg t.mint).2 t.owner).2 t.delegate).2
        t.close_auth).1 :=
    Nat.mod_eq_of_lt (by have := fst4_le reg t.mint t.owner t.delegate t.close_auth; omega)
  have hdt2 : t.delegate_tag = 0 ∨ t.delegate_tag = 1 := by omega
  have hnt2 : t.is_native_tag = 0 ∨ t.is_native_tag = 1 := by omega
  have hct2 : t.close_auth_tag = 0 ∨ t.close_auth_tag = 1 := by omega
  have hst2 : t.state = 0 ∨ t.state = 1 ∨ t.state = 2 := by omega
  rcases hdt2 with hdt' | hdt' <;> rcases hnt2 with hnt' | hnt' <;>
    rcases hct2 with hct' | hct' <;>
    rcases Nat.eq_zero_or_pos t.delegated_amount with hda | hda <;>
    rcases hst2 with hst' | hst' | hst' <;>
  · simp +decide only [compress, decompress, SPL_FLAG_STATE_MASK, SPL_FLAG_IS_NATIVE,
      SPL_FLAG_HAS_DELEGATE, SPL_FLAG_HAS_CLOSE_AUTH, SPL_FLAG_HAS_DEL_AMT,
      encode165, List.append_assoc, List.length_append, List.length_cons, List.length_nil,
      List.length_replicate, reduceIte, Nat.reduceLT, Nat.reduceEqDiff, Nat.reduceLeDiff,
      if_true, if_false, ne_eq, gt_iff_lt,
      toLe4_length, toLe8_length, Nat.reduceSub, Nat.reduceAdd,
      u32le_append_ge, u64le_append_ge, getD_append_ge, getD_append_zero,
      listSlice_append_ge, listSlice_here, listSlice_all,
      u32le_toLe4, u64le_toLe8, u64le_toLe8_self,
      writeRange_append_ge, writeRange_exact, writeRange_exact_all,
      repl165_split, Nat.or_zero, Nat.zero_or, Nat.zero_mod,
      flag_or_facts1, flag_or_facts2, and3_eq_mod, Nat.reduceMod,
      gp2_mint, gp2_owner, gp3_mint, gp3_owner, gp3_third,
      gp4_mint, gp4_owner, gp4_third, gp4_fourth,
      Option.getD_some, hm, ho, hd, hc, hb1, hb2, hb3d, hb3c, hb4,
      hamod, hnamod, hdamod, hdt', hnt', hct', hda, hst', hz1, hz2, hz3]


/-- C2 witness: a concrete tier-3 token account with delegate, native
amount, delegated amount and close authority round-trips exactly. -/
theorem compressor_roundtrip_witness :
    decompress
      (compress (encode165 ⟨List.replicate 32 1, List.replicate 32 2, 77, 1,
        List.replicate 32 9, 2, 1, 42, 5, 1, List.replicate 32 8⟩) []).tier
      (compress (encode165 ⟨List.replicate 32 1, List.replicate 32 2, 77, 1,
        List.replicate 32 9, 2, 1, 42, 5, 1, List.replicate 32 8⟩) []).buf
      (compress (encode165 ⟨List.replicate 32 1, List.replicate 32 2, 77, 1,
        List.replicate 32 9, 2, 1, 42, 5, 1, List.replicate 32 8⟩) []).flags
      (compress (encode165 ⟨List.replicate 32 1, List.replicate 32 2, 77, 1,
        List.replicate 32 9, 2, 1, 42, 5, 1, List.replicate 32 8⟩) []).reg
      = encode165 ⟨List.replicate 32 1, List.replicate 32 2, 77, 1,
        List.replicate 32 9, 2, 1, 42, 5, 1, List.replicate 32 8⟩ :=
  compressor_roundtrip ⟨List.replicate 32 1, List.replicate 32 2, 77, 1,
    List.replicate 32 9, 2, 1, 42, 5, 1, List.replicate 32 8⟩ []
    (by refine ⟨by decide, by decide, by decide, by decide, by decide, by decide,
      by decide, by decide, by decide, by decide, by decide, ?_, ?_, ?_⟩ <;> decide)
    (by decide)
